import Mathlib

/-!
# Verification of the TV export scripts

A shallow embedding of the two export utilities of this repository
(`scripts/export-tizen.js`, the Samsung/Tizen exporter, and
`scripts/export-webos.js`, the LG/webOS exporter), together with proofs
about the properties stated in the specification.

The two scripts are structurally parallel; helper functions that are
textually identical in both sources (`fixIndexHtmlPaths`' string
rewriting, `copyDirectory`) are embedded once and used by both pipelines.

Strings are modelled as `List Char` where character-level scanning
matters (the `String.replace` calls), and as `String` for file contents.
The filesystem is modelled as a rooted tree of named entries; each
`fs.*Sync` primitive used by the scripts is embedded as an operation on
that tree, returning `Option` where the Node.js call can throw.
-/

namespace TVExport

/-- The double-quote character (written numerically to keep character
literals simple). -/
def dq : Char := Char.ofNat 34

/-! ## The `String.replace` passes of `fixIndexHtmlPaths`

The source performs four global replacements on the entry file:

  indexContent.replace(/src="\/_expo\//g, 'src="_expo/');
  indexContent.replace(/href="\/_expo\//g, 'href="_expo/');
  indexContent.replace(/src="\/([^"]+)"/g, 'src="$1"');
  indexContent.replace(/href="\/([^"]+)"/g, 'href="$1"');

The first two regexes are literal strings; the last two have one greedy
group `[^"]+`.  JavaScript global replace scans left to right: at each
position it tries the pattern; on a match it emits the replacement and
resumes after the matched text, otherwise it emits the character and
advances by one. -/

/-- Global replacement of the literal pattern `pat` by `repl`, with
JavaScript's left-to-right non-overlapping scan. -/
def replaceLit (pat repl : List Char) : List Char → List Char
  | [] => []
  | c :: t =>
    if h : pat ≠ [] ∧ pat.isPrefixOf (c :: t) then
      repl ++ replaceLit pat repl ((c :: t).drop pat.length)
    else
      c :: replaceLit pat repl t
termination_by l => l.length
decreasing_by
  · simp only [List.length_drop, List.length_cons]
    have : 0 < pat.length := List.length_pos.mpr h.1
    omega
  · simp

/-- Global replacement for the regex `attr"\/([^"]+)"` by `attr"$1"`
(with `attr` being `src=` or `href=`): at a position starting with
`attr"/`, the greedy group takes the maximal run of non-quote characters;
the match succeeds if that run is nonempty and is followed by a closing
quote, and the scan resumes after that quote. -/
def stripAttrSlash (attr : List Char) : List Char → List Char
  | [] => []
  | c :: t =>
    if (attr ++ dq :: '/' :: []).isPrefixOf (c :: t) then
      let t1 := (c :: t).drop (attr.length + 2)
      let x := t1.takeWhile (fun ch => ch ≠ dq)
      match h : t1.drop x.length with
      | ch :: t2 =>
        if x ≠ [] ∧ ch = dq then
          attr ++ dq :: (x ++ dq :: stripAttrSlash attr t2)
        else
          c :: stripAttrSlash attr t
      | [] => c :: stripAttrSlash attr t
    else
      c :: stripAttrSlash attr t
termination_by l => l.length
decreasing_by
  · have ht1 : t1 = (c :: t).drop (attr.length + 2) := rfl
    have hlen := congrArg List.length h
    rw [ht1] at hlen
    simp only [List.length_drop, List.length_cons] at hlen ⊢
    omega
  · simp
  · simp

/-- The literal pattern of the first replace: `src="/_expo/`. -/
def srcLitPat : List Char := "src=\"/_expo/".toList

/-- Its replacement: `src="_expo/`. -/
def srcLitRepl : List Char := "src=\"_expo/".toList

/-- The literal pattern of the second replace: `href="/_expo/`. -/
def hrefLitPat : List Char := "href=\"/_expo/".toList

/-- Its replacement: `href="_expo/`. -/
def hrefLitRepl : List Char := "href=\"_expo/".toList

/-- The attribute stem of the third replace: `src=`. -/
def srcAttr : List Char := "src=".toList

/-- The attribute stem of the fourth replace: `href=`. -/
def hrefAttr : List Char := "href=".toList

/-- The full content transformation performed by `fixIndexHtmlPaths`
(identical in both exporters): the four replacements in source order. -/
def fixIndexContent (s : List Char) : List Char :=
  stripAttrSlash hrefAttr
    (stripAttrSlash srcAttr
      (replaceLit hrefLitPat hrefLitRepl
        (replaceLit srcLitPat srcLitRepl s)))

/-- Only the second stage (the two generic leading-slash rules), used to
compare against the full two-stage rewrite. -/
def genericOnlyContent (s : List Char) : List Char :=
  stripAttrSlash hrefAttr (stripAttrSlash srcAttr s)

/-- `String`-level wrapper used by the pipeline steps. -/
def fixIndexString (s : String) : String :=
  ⟨fixIndexContent s.toList⟩

/-! ## Filesystem model

A filesystem is a rooted tree of named entries; the root is the app
directory (`apps/expo-multi-tv`), so the paths used by the scripts are
`["dist"]`, `["tizen-build"]`, `["webos-build"]`,
`["assets", "images", ...]` and so on.  File contents are strings
(standing for the byte sequences the scripts copy verbatim).  Each
`fs.*Sync` primitive the scripts call is embedded below; `none` models a
thrown `Error`. -/

/-- A filesystem node: a file with its contents, or a directory with its
ordered list of named children. -/
inductive FNode where
  | file (content : String)
  | dir (children : List (String × FNode))

mutual

/-- Decidable equality of filesystem nodes. -/
def decEqNode : (a b : FNode) → Decidable (a = b)
  | FNode.file a, FNode.file b =>
    match decEq a b with
    | isTrue h => isTrue (by rw [h])
    | isFalse h => isFalse (by intro hh; cases hh; exact h rfl)
  | FNode.file _, FNode.dir _ => isFalse (by intro h; cases h)
  | FNode.dir _, FNode.file _ => isFalse (by intro h; cases h)
  | FNode.dir a, FNode.dir b =>
    match decEqChildren a b with
    | isTrue h => isTrue (by rw [h])
    | isFalse h => isFalse (by intro hh; cases hh; exact h rfl)

/-- Decidable equality of child lists. -/
def decEqChildren : (a b : List (String × FNode)) → Decidable (a = b)
  | [], [] => isTrue rfl
  | [], _ :: _ => isFalse (by intro h; cases h)
  | _ :: _, [] => isFalse (by intro h; cases h)
  | (n, e) :: r, (n2, e2) :: r2 =>
    match decEq n n2, decEqNode e e2, decEqChildren r r2 with
    | isTrue h1, isTrue h2, isTrue h3 => isTrue (by rw [h1, h2, h3])
    | isFalse h1, _, _ => isFalse (by intro hh; cases hh; exact h1 rfl)
    | _, isFalse h2, _ => isFalse (by intro hh; cases hh; exact h2 rfl)
    | _, _, isFalse h3 => isFalse (by intro hh; cases hh; exact h3 rfl)

end

instance : DecidableEq FNode := decEqNode

/-- Look up a name in a directory's child list. -/
def getChild (cs : List (String × FNode)) (k : String) : Option FNode :=
  match cs with
  | [] => none
  | (n, e) :: rest => if n = k then some e else getChild rest k

/-- Replace the entry for a name in a directory's child list, appending a
new entry if the name is absent. -/
def setChild (cs : List (String × FNode)) (k : String) (v : FNode) :
    List (String × FNode) :=
  match cs with
  | [] => [(k, v)]
  | (n, e) :: rest => if n = k then (n, v) :: rest else (n, e) :: setChild rest k v

/-- Remove the entry for a name from a directory's child list. -/
def delChild (cs : List (String × FNode)) (k : String) : List (String × FNode) :=
  match cs with
  | [] => []
  | (n, e) :: rest => if n = k then delChild rest k else (n, e) :: delChild rest k

/-- Resolve a path from a node. -/
def lookupNode : FNode → List String → Option FNode
  | n, [] => some n
  | FNode.file _, _ :: _ => none
  | FNode.dir cs, k :: p =>
    match getChild cs k with
    | some c => lookupNode c p
    | none => none

/-- `fs.existsSync(p)`. -/
def existsNode (fs : FNode) (p : List String) : Bool :=
  (lookupNode fs p).isSome

/-- `entry.isDirectory()`. -/
def isDirNode : FNode → Bool
  | FNode.file _ => false
  | FNode.dir _ => true

/-- `fs.mkdirSync(p, { recursive: true })`: creates missing directories
along `p`, is a no-op on an existing directory, and throws if a file is
in the way. -/
def mkdirp : FNode → List String → Option FNode
  | FNode.file _, [] => none
  | FNode.dir cs, [] => some (FNode.dir cs)
  | FNode.file _, _ :: _ => none
  | FNode.dir cs, k :: p => do
    let ch ← mkdirp ((getChild cs k).getD (FNode.dir [])) p
    some (FNode.dir (setChild cs k ch))

/-- `fs.writeFileSync(p, c)` (also the destination half of
`fs.copyFileSync`): overwrites or creates the file at `p`; parent
directories must already exist; throws if a directory is in the way. -/
def writeFile : FNode → List String → String → Option FNode
  | _, [], _ => none
  | FNode.file _, _ :: _, _ => none
  | FNode.dir cs, [k], c =>
    match getChild cs k with
    | some (FNode.dir _) => none
    | _ => some (FNode.dir (setChild cs k (FNode.file c)))
  | FNode.dir cs, k :: p1 :: p, c => do
    let ch0 ← getChild cs k
    let ch ← writeFile ch0 (p1 :: p) c
    some (FNode.dir (setChild cs k ch))

/-- `fs.readFileSync(p)` (also the source half of `fs.copyFileSync`). -/
def readFile (fs : FNode) (p : List String) : Option String :=
  match lookupNode fs p with
  | some (FNode.file c) => some c
  | _ => none

/-- `fs.rmSync(p, { recursive: true, force: true })`: removes the
subtree at `p` if present, and is a no-op otherwise. -/
def rmrf : FNode → List String → FNode
  | n, [] => n
  | FNode.file c, _ :: _ => FNode.file c
  | FNode.dir cs, [k] => FNode.dir (delChild cs k)
  | FNode.dir cs, k :: p1 :: p =>
    match getChild cs k with
    | some ch => FNode.dir (setChild cs k (rmrf ch (p1 :: p)))
    | none => FNode.dir cs

/-- `fs.readdirSync(p, { withFileTypes: true })`: the entry names with
their `isDirectory()` flags, in directory order. -/
def readdirTyped (fs : FNode) (p : List String) : Option (List (String × Bool)) :=
  match lookupNode fs p with
  | some (FNode.dir cs) => some (cs.map (fun e => (e.1, isDirNode e.2)))
  | _ => none

/-- The `copyDirectory(src, dest)` function, identical in both
exporters: make the destination directory, list the source entries, then
fold the `for`-loop body over them (recurse into a subdirectory, or
`fs.copyFileSync` a file: read then write).  `fuel` bounds the recursion
depth (the script recurses on the finite directory tree; the theorems
supply sufficient fuel).  An `Except.error` result models a thrown
filesystem error and carries the filesystem at the throw. -/
def copyDirectory : Nat → FNode → List String → List String → Except FNode FNode
  | 0, fs, _, _ => Except.error fs
  | fuel + 1, fs, src, dest =>
    match mkdirp fs dest with
    | none => Except.error fs
    | some fs1 =>
      match readdirTyped fs1 src with
      | none => Except.error fs1
      | some entries =>
        entries.foldlM
          (fun acc e =>
            if e.2 then copyDirectory fuel acc (src ++ [e.1]) (dest ++ [e.1])
            else
              match readFile acc (src ++ [e.1]) with
              | none => Except.error acc
              | some c =>
                match writeFile acc (dest ++ [e.1]) c with
                | none => Except.error acc
                | some acc2 => Except.ok acc2)
          fs1

/-- The loop body of `copyDirectory`, named for the statements about the
fold: one directory entry `(name, isDirectory)` is either a recursive
copy or a file copy. -/
def copyStep (fuel : Nat) (src dest : List String) (acc : FNode)
    (e : String × Bool) : Except FNode FNode :=
  if e.2 then copyDirectory fuel acc (src ++ [e.1]) (dest ++ [e.1])
  else
    match readFile acc (src ++ [e.1]) with
    | none => Except.error acc
    | some c =>
      match writeFile acc (dest ++ [e.1]) c with
      | none => Except.error acc
      | some acc2 => Except.ok acc2

/-! ## Application metadata and the generated descriptors -/

/-- The application metadata read from the repository's `package.json`.
Only the `version` field is consulted by the exporters; `none` models an
absent field. -/
structure PackageJson where
  version : Option String
deriving DecidableEq

/-- JavaScript `a || b` for a possibly-absent string field: `undefined`
and the empty string are falsy; every other string is truthy. -/
def jsOrString (a : Option String) (b : String) : String :=
  match a with
  | none => b
  | some s => if s = "" then b else s

/-- The fields of the `TIZEN_CONFIG` object that feed the generated
`config.xml` (the privilege and feature lists are fixed literals inlined
in the template below, as they are in the source's `configXml`). -/
structure TizenConfig where
  packageId : String
  appId : String
  version : String
  name : String
  authorName : String
  authorEmail : String
  authorHref : String
  description : String
  icon : String
  content : String
deriving DecidableEq

/-- The `TIZEN_CONFIG` object of the Samsung exporter. -/
def TIZEN_CONFIG (pj : PackageJson) : TizenConfig :=
  { packageId := "MultiTVExpoApp"
    appId := "multitv.expoapp"
    version := jsOrString pj.version "1.0.0"
    name := "Multi-TV App"
    authorName := "Multi-TV"
    authorEmail := "developer@multitv.com"
    authorHref := "https://multitv.com"
    description := "Multi-platform TV application built with React Native"
    icon := "icon.png"
    content := "index.html" }

/-- The `config.xml` text generated by `createConfigXml`, transcribed
from the template literal in the source. -/
def configXmlContent (cfg : TizenConfig) : String :=
  "<?xml version=\"1.0\" encoding=\"UTF-8\"?>\n<widget xmlns=\"http://www.w3.org/ns/widgets\"\n        xmlns:tizen=\"http://tizen.org/ns/widgets\"\n        id=\"" ++ cfg.packageId ++
  "\"\n        version=\"" ++ cfg.version ++
  "\"\n        viewmodes=\"maximized\">\n    <tizen:application id=\"" ++ cfg.appId ++
  "\" package=\"" ++ cfg.packageId ++
  "\" required_version=\"6.0\"/>\n    <content src=\"" ++ cfg.content ++
  "\"/>\n    <feature name=\"http://tizen.org/feature/screen.size.normal.1080.1920\"/>\n    <icon src=\"" ++ cfg.icon ++
  "\"/>\n    <name>" ++ cfg.name ++
  "</name>\n    <tizen:profile name=\"tv-samsung\"/>\n    <tizen:privilege name=\"http://tizen.org/privilege/internet\"/>\n    <tizen:privilege name=\"http://tizen.org/privilege/application.launch\"/>\n    <tizen:setting screen-orientation=\"landscape\"\n                   context-menu=\"enable\"\n                   background-support=\"disable\"\n                   encryption=\"disable\"\n                   install-location=\"auto\"\n                   hwkey-event=\"enable\"/>\n    <description>" ++ cfg.description ++
  "</description>\n    <author email=\"" ++ cfg.authorEmail ++
  "\"\n            href=\"" ++ cfg.authorHref ++
  "\">\n        " ++ cfg.authorName ++
  "\n    </author>\n</widget>"

/-- The fields of the `WEBOS_CONFIG` object. -/
structure WebosConfig where
  id : String
  version : String
  vendor : String
  type : String
  main : String
  title : String
  icon : String
  largeIcon : String
  bgImage : String
  appDescription : String
  resolution : String
  disableBackHistoryAPI : Bool
  handlesRelaunch : Bool
deriving DecidableEq

/-- The `WEBOS_CONFIG` object of the LG exporter. -/
def WEBOS_CONFIG (pj : PackageJson) : WebosConfig :=
  { id := "com.multitv.expoapp"
    version := jsOrString pj.version "1.0.0"
    vendor := "Multi-TV"
    type := "web"
    main := "index.html"
    title := "Multi-TV App"
    icon := "icon-80.png"
    largeIcon := "icon-130.png"
    bgImage := "splash.png"
    appDescription := "Multi-platform TV application built with React Native"
    resolution := "1920x1080"
    disableBackHistoryAPI := true
    handlesRelaunch := true }

/-- String escaping applied by `JSON.stringify` to the characters that
can occur in the strings at hand (quote, backslash, and the common
whitespace controls; other control characters do not occur in the
configuration values and package versions handled by the script). -/
def jsonEscapeChar (c : Char) : List Char :=
  if c = dq then '\\' :: dq :: []
  else if c = '\\' then '\\' :: '\\' :: []
  else if c = '\n' then '\\' :: 'n' :: []
  else if c = '\t' then '\\' :: 't' :: []
  else if c = '\r' then '\\' :: 'r' :: []
  else [c]

/-- A `JSON.stringify`-rendered string value. -/
def jsonStr (s : String) : String :=
  ⟨dq :: (s.toList.flatMap jsonEscapeChar) ++ [dq]⟩

/-- A `JSON.stringify`-rendered boolean. -/
def jsonBool (b : Bool) : String :=
  if b then "true" else "false"

/-- The `appinfo.json` text generated by `createAppInfo`:
`JSON.stringify(appInfo, null, 2)` on the flat object, keys in insertion
order with two-space indentation. -/
def appInfoContent (cfg : WebosConfig) : String :=
  "\x7b\n  \"id\": " ++ jsonStr cfg.id ++
  ",\n  \"version\": " ++ jsonStr cfg.version ++
  ",\n  \"vendor\": " ++ jsonStr cfg.vendor ++
  ",\n  \"type\": " ++ jsonStr cfg.type ++
  ",\n  \"main\": " ++ jsonStr cfg.main ++
  ",\n  \"title\": " ++ jsonStr cfg.title ++
  ",\n  \"icon\": " ++ jsonStr cfg.icon ++
  ",\n  \"largeIcon\": " ++ jsonStr cfg.largeIcon ++
  ",\n  \"bgImage\": " ++ jsonStr cfg.bgImage ++
  ",\n  \"appDescription\": " ++ jsonStr cfg.appDescription ++
  ",\n  \"resolution\": " ++ jsonStr cfg.resolution ++
  ",\n  \"disableBackHistoryAPI\": " ++ jsonBool cfg.disableBackHistoryAPI ++
  ",\n  \"handlesRelaunch\": " ++ jsonBool cfg.handlesRelaunch ++
  "\n\x7d"

/-! ## The two export pipelines -/

/-- `DIST_DIR`, relative to the app root. -/
def distPath : List String := ["dist"]

/-- `TIZEN_DIR`. -/
def tizenPath : List String := ["tizen-build"]

/-- `WEBOS_DIR`. -/
def webosPath : List String := ["webos-build"]

/-- The run environment of one exporter invocation: the outcome of
reading and JSON-parsing `package.json` at module load (`none` when the
file is absent or not parseable, in which case the script prints an
error and exits 1), whether the platform packaging CLI is on the PATH
(the `which` probe), whether its package command exits zero, and the
copy-recursion fuel. -/
structure ExportEnv where
  packageJson : Option PackageJson
  cliFound : Bool
  packageCmdSucceeds : Bool
  fuel : Nat

/-- Sequencing of pipeline steps: each step returns the new filesystem
and its printed lines, or a thrown error (filesystem at the throw plus
lines printed before it), which `main`'s catch turns into exit code 1. -/
def stepThen (r : Except (FNode × List String) (FNode × List String))
    (next : FNode → Except (FNode × List String) (FNode × List String)) :
    Except (FNode × List String) (FNode × List String) :=
  match r with
  | Except.error e => Except.error e
  | Except.ok (fs, l) =>
    match next fs with
    | Except.error (fs2, l2) => Except.error (fs2, l ++ l2)
    | Except.ok (fs2, l2) => Except.ok (fs2, l ++ l2)

/-- The shared shape of the per-asset blocks of `handleIcons`: probe a
fixed source path; if present copy it to the staging destination, else
print the non-fatal warning lines. -/
def copyOptionalAsset (srcP destP : List String) (okMsg : String)
    (warnLines : List String) (fs : FNode) :
    Except (FNode × List String) (FNode × List String) :=
  if existsNode fs srcP then
    match readFile fs srcP with
    | none => Except.error (fs, [])
    | some c =>
      match writeFile fs destP c with
      | none => Except.error (fs, [])
      | some fs1 => Except.ok (fs1, [okMsg])
  else
    Except.ok (fs, warnLines)

/-- The separator line both exporters print: `'='.repeat(60)`. -/
def sepLine : String := String.mk (List.replicate 60 '=')

namespace Tizen

/-- `copyDistFiles` of the Samsung exporter.  The dist-missing branch is
`process.exit(1)` in the source; like a thrown error it ends the run
with a non-zero exit before any staging mutation, so both are modelled
as `Except.error`. -/
def copyDistFiles (fuel : Nat) (fs : FNode) :
    Except (FNode × List String) (FNode × List String) :=
  if existsNode fs distPath = false then
    Except.error (fs,
      ["Error: dist directory not found. Please run \"npx expo export --platform web\" first."])
  else
    let fs1 := if existsNode fs tizenPath then rmrf fs tizenPath else fs
    match mkdirp fs1 tizenPath with
    | none => Except.error (fs1, [])
    | some fs2 =>
      match copyDirectory fuel fs2 distPath tizenPath with
      | Except.error fs3 => Except.error (fs3, [])
      | Except.ok fs3 => Except.ok (fs3, ["✓ Copied dist files to Tizen build directory"])

/-- `fixIndexHtmlPaths` of the Samsung exporter (warn-and-skip when the
entry file is absent; rewrite it in place otherwise). -/
def fixIndexHtmlPaths (fs : FNode) :
    Except (FNode × List String) (FNode × List String) :=
  if existsNode fs (tizenPath ++ ["index.html"]) = false then
    Except.ok (fs, ["⚠ index.html not found, skipping path fixes"])
  else
    match readFile fs (tizenPath ++ ["index.html"]) with
    | none => Except.error (fs, [])
    | some content =>
      match writeFile fs (tizenPath ++ ["index.html"]) (fixIndexString content) with
      | none => Except.error (fs, [])
      | some fs1 =>
        Except.ok (fs1, ["✓ Fixed paths in index.html to use relative URLs (no leading slash)"])

/-- `createConfigXml`. -/
def createConfigXml (pj : PackageJson) (fs : FNode) :
    Except (FNode × List String) (FNode × List String) :=
  match writeFile fs (tizenPath ++ ["config.xml"]) (configXmlContent (TIZEN_CONFIG pj)) with
  | none => Except.error (fs, [])
  | some fs1 => Except.ok (fs1, ["✓ Created config.xml"])

/-- The fixed source location of the Samsung icon asset. -/
def iconSrcPath : List String := ["assets", "images", "icon-512.png"]

/-- `handleIcons` of the Samsung exporter. -/
def handleIcons (pj : PackageJson) (fs : FNode) :
    Except (FNode × List String) (FNode × List String) :=
  copyOptionalAsset iconSrcPath (tizenPath ++ [(TIZEN_CONFIG pj).icon])
    ("✓ Copied 512x512 icon")
    ["⚠ No 512x512 icon found. You need to add:",
     "  - assets/images/icon-512.png (512x512 PNG)"]
    fs

/-- The warning lines of `createWGT`'s catch block. -/
def wgtWarnLines : List String :=
  ["⚠ tizen CLI not found. To create a WGT package:",
   "  1. Install Tizen Studio: https://developer.tizen.org/development/tizen-studio/download",
   "  2. Add tizen CLI to your PATH",
   "  3. Create certificate: tizen certificate -a MyProfile -p <password>",
   "  4. Run: tizen package -t wgt -s MultiTVExpoApp -- tizen-build"]

/-- `createWGT`: probe for the `tizen` CLI and invoke
`tizen package -t wgt -s MultiTVExpoApp -o .. -- tizen-build`.  On
success the external tool writes the widget package next to the app root
(its bytes are produced outside this repository and modelled as an
opaque marker).  A missing CLI or a non-zero CLI exit lands in the catch
block, which prints the manual-recovery warnings and returns normally. -/
def createWGT (env : ExportEnv) (fs : FNode) : FNode × List String :=
  if env.cliFound then
    if env.packageCmdSucceeds then
      match writeFile fs ["MultiTVExpoApp.wgt"] "<external package bytes>" with
      | some fs1 =>
        (fs1, ["📦 Creating WGT package...", "✓ WGT package created successfully"])
      | none => (fs, "📦 Creating WGT package..." :: wgtWarnLines)
    else
      (fs, "📦 Creating WGT package..." :: wgtWarnLines)
  else
    (fs, wgtWarnLines)

/-- `displayInstructions` (pure logging; host-absolute interpolations
are rendered by their repository-relative names). -/
def displayInstructions (fs : FNode) : FNode × List String :=
  (fs,
   [sepLine,
    "Tizen Build Complete!",
    sepLine,
    "Build directory: tizen-build",
    "Next steps:",
    "  1. Review and customize config.xml if needed",
    "  2. Add proper icon (512x512 PNG)",
    "To create a WGT package:",
    "  1. Install Tizen Studio",
    "  2. Create a certificate:",
    "     tizen certificate -a MyProfile -p <password>",
    "  3. Create security profile:",
    "     tizen security-profiles add -n MyProfile -a /path/to/author.p12 -p <password>",
    "  4. Package the app:",
    "     tizen package -t wgt -s MultiTVExpoApp -- tizen-build",
    "To install on your Samsung TV:",
    "  1. Enable developer mode on TV",
    "  2. Connect to TV:",
    "     tizen connect <tv-ip-address>",
    "  3. Install the app:",
    "     tizen install -n MultiTVExpoApp.wgt -t <tv-name>",
    "  4. Run the app:",
    "     tizen run -p MultiTVExpoApp -t <tv-name>",
    sepLine])

/-- The first three mandatory steps of the Samsung exporter:
`copyDistFiles; fixIndexHtmlPaths(); createConfigXml()`. -/
def staged3 (fuel : Nat) (pj : PackageJson) (fs0 : FNode) :
    Except (FNode × List String) (FNode × List String) :=
  stepThen (stepThen (copyDistFiles fuel fs0) fixIndexHtmlPaths) (createConfigXml pj)

/-- The mandatory (fallible) steps of the Samsung exporter, in source
order: `copyDistFiles; fixIndexHtmlPaths(); createConfigXml();
handleIcons()`. -/
def staged (fuel : Nat) (pj : PackageJson) (fs0 : FNode) :
    Except (FNode × List String) (FNode × List String) :=
  stepThen (staged3 fuel pj fs0) (handleIcons pj)

/-- `main` of the Samsung exporter: read metadata at module load, run
the pipeline inside try/catch, and report.  Result: exit code, final
filesystem, printed lines. -/
def main (env : ExportEnv) (fs0 : FNode) : Nat × FNode × List String :=
  match env.packageJson with
  | none => (1, fs0, ["Error reading package.json:"])
  | some pj =>
    match staged env.fuel pj fs0 with
    | Except.error (fs, l) =>
      (1, fs, ("Starting Tizen export process..." :: l) ++ ["Error during Tizen export:"])
    | Except.ok (fs1, l1) =>
      let r2 := createWGT env fs1
      let r3 := displayInstructions r2.1
      (0, r3.1, ("Starting Tizen export process..." :: l1) ++ r2.2 ++ r3.2)

end Tizen

namespace WebOS

/-- `copyDistFiles` of the LG exporter (identical to the Samsung one up
to the staging directory name and message). -/
def copyDistFiles (fuel : Nat) (fs : FNode) :
    Except (FNode × List String) (FNode × List String) :=
  if existsNode fs distPath = false then
    Except.error (fs,
      ["Error: dist directory not found. Please run \"npx expo export --platform web\" first."])
  else
    let fs1 := if existsNode fs webosPath then rmrf fs webosPath else fs
    match mkdirp fs1 webosPath with
    | none => Except.error (fs1, [])
    | some fs2 =>
      match copyDirectory fuel fs2 distPath webosPath with
      | Except.error fs3 => Except.error (fs3, [])
      | Except.ok fs3 => Except.ok (fs3, ["✓ Copied dist files to webOS build directory"])

/-- `fixIndexHtmlPaths` of the LG exporter. -/
def fixIndexHtmlPaths (fs : FNode) :
    Except (FNode × List String) (FNode × List String) :=
  if existsNode fs (webosPath ++ ["index.html"]) = false then
    Except.ok (fs, ["⚠ index.html not found, skipping path fixes"])
  else
    match readFile fs (webosPath ++ ["index.html"]) with
    | none => Except.error (fs, [])
    | some content =>
      match writeFile fs (webosPath ++ ["index.html"]) (fixIndexString content) with
      | none => Except.error (fs, [])
      | some fs1 =>
        Except.ok (fs1, ["✓ Fixed paths in index.html to use relative URLs (no leading slash)"])

/-- `createAppInfo`. -/
def createAppInfo (pj : PackageJson) (fs : FNode) :
    Except (FNode × List String) (FNode × List String) :=
  match writeFile fs (webosPath ++ ["appinfo.json"]) (appInfoContent (WEBOS_CONFIG pj)) with
  | none => Except.error (fs, [])
  | some fs1 => Except.ok (fs1, ["✓ Created appinfo.json"])

/-- `handleIcons` of the LG exporter: the three independent optional
assets, probed and copied in source order. -/
def handleIcons (pj : PackageJson) (fs : FNode) :
    Except (FNode × List String) (FNode × List String) :=
  stepThen (stepThen
    (copyOptionalAsset ["assets", "images", "icon-80.png"]
      (webosPath ++ [(WEBOS_CONFIG pj).icon])
      ("✓ Copied 80x80 icon")
      ["⚠ No 80x80 icon found. You need to add:",
       "  - assets/images/icon-80.png (80x80 PNG)"]
      fs)
    (copyOptionalAsset ["assets", "images", "icon-130.png"]
      (webosPath ++ [(WEBOS_CONFIG pj).largeIcon])
      ("✓ Copied 130x130 icon")
      ["⚠ No 130x130 icon found. You need to add:",
       "  - assets/images/icon-130.png (130x130 PNG)"]))
    (copyOptionalAsset ["assets", "images", "splash-1920x1080.png"]
      (webosPath ++ [(WEBOS_CONFIG pj).bgImage])
      ("✓ Copied splash image")
      ["⚠ No splash image found. You may want to add:",
       "  - assets/images/splash-1920x1080.png (1920x1080 PNG)"])

/-- The warning lines of `createIPK`'s catch block. -/
def ipkWarnLines : List String :=
  ["⚠ ares-package not found. To create an IPK package:",
   "  1. Install webOS CLI: npm install -g @webos-tools/cli",
   "  2. Run: ares-package webos-build --no-minify"]

/-- `createIPK`: probe for `ares-package` and invoke
`ares-package webos-build -o .. --no-minify`; failure lands in the catch
block with the manual-recovery warnings. -/
def createIPK (env : ExportEnv) (fs : FNode) : FNode × List String :=
  if env.cliFound then
    if env.packageCmdSucceeds then
      match writeFile fs ["com.multitv.expoapp_1.0.0_all.ipk"] "<external package bytes>" with
      | some fs1 =>
        (fs1, ["📦 Creating IPK package...", "✓ IPK package created successfully"])
      | none => (fs, "📦 Creating IPK package..." :: ipkWarnLines)
    else
      (fs, "📦 Creating IPK package..." :: ipkWarnLines)
  else
    (fs, ipkWarnLines)

/-- `displayInstructions` of the LG exporter (pure logging). -/
def displayInstructions (fs : FNode) : FNode × List String :=
  (fs,
   [sepLine,
    "webOS Build Complete!",
    sepLine,
    "Build directory: webos-build",
    "Next steps:",
    "  1. Review and customize appinfo.json if needed",
    "  2. Add proper icons (80x80 and 130x130 PNG)",
    "  3. Add splash image (1920x1080 PNG) if desired",
    "To create an IPK package:",
    "  npm install -g @webos-tools/cli",
    "  ares-package webos-build",
    "To install on your LG TV:",
    "  ares-setup-device --add <device-name> <ip-address>",
    "  ares-install --device <device-name> com.multitv.expoapp_*.ipk",
    "  ares-launch --device <device-name> com.multitv.expoapp",
    sepLine])

/-- The first three mandatory steps of the LG exporter:
`copyDistFiles; fixIndexHtmlPaths(); createAppInfo()`. -/
def staged3 (fuel : Nat) (pj : PackageJson) (fs0 : FNode) :
    Except (FNode × List String) (FNode × List String) :=
  stepThen (stepThen (copyDistFiles fuel fs0) fixIndexHtmlPaths) (createAppInfo pj)

/-- The mandatory (fallible) steps of the LG exporter, in source order:
`copyDistFiles; fixIndexHtmlPaths(); createAppInfo(); handleIcons()`. -/
def staged (fuel : Nat) (pj : PackageJson) (fs0 : FNode) :
    Except (FNode × List String) (FNode × List String) :=
  stepThen (staged3 fuel pj fs0) (handleIcons pj)

/-- `main` of the LG exporter. -/
def main (env : ExportEnv) (fs0 : FNode) : Nat × FNode × List String :=
  match env.packageJson with
  | none => (1, fs0, ["Error reading package.json:"])
  | some pj =>
    match staged env.fuel pj fs0 with
    | Except.error (fs, l) =>
      (1, fs, ("Starting webOS export process..." :: l) ++ ["Error during webOS export:"])
    | Except.ok (fs1, l1) =>
      let r2 := createIPK env fs1
      let r3 := displayInstructions r2.1
      (0, r3.1, ("Starting webOS export process..." :: l1) ++ r2.2 ++ r3.2)

end WebOS

/-! ## Specification-side notions

The definitions below are not translations of source functions; they are
the vocabulary in which the properties are stated: path disjointness,
tree grafting (the functional description of what the copy builds),
well-formedness (directories with distinct child names), tree size,
substring occurrence, the decomposition of an entry file into literal
text and root-relative asset references, and the decomposition of the
generated descriptors around their version field. -/

/-- Two paths diverge when neither is a prefix of the other: an
operation rooted at one cannot see or disturb the other. -/
def Diverge (p q : List String) : Prop :=
  ¬ p <+: q ∧ ¬ q <+: p

instance (p q : List String) : Decidable (Diverge p q) :=
  inferInstanceAs (Decidable (_ ∧ _))

/-- Replace the subtree at `p` with `v`, creating missing intermediate
directories; a file in the way makes the graft a no-op (the
corresponding filesystem call would have thrown). -/
def graft : FNode → List String → FNode → FNode
  | _, [], v => v
  | FNode.file c, _ :: _, _ => FNode.file c
  | FNode.dir cs, k :: p, v =>
    FNode.dir (setChild cs k (graft ((getChild cs k).getD (FNode.dir [])) p v))

/-- No file stands at a proper prefix of `p` (so a graft at `p` really
lands at `p`). -/
def pathFits : FNode → List String → Bool
  | _, [] => true
  | FNode.file _, _ :: _ => false
  | FNode.dir cs, k :: p =>
    match getChild cs k with
    | some ch => pathFits ch p
    | none => true

/-- Distinct names in one directory. -/
def noDupKeys : List String → Bool
  | [] => true
  | k :: r => !(r.contains k) && noDupKeys r

mutual

/-- A well-formed tree: every directory has pairwise-distinct child
names (as real filesystems guarantee). -/
def wfNode : FNode → Bool
  | FNode.file _ => true
  | FNode.dir cs => noDupKeys (cs.map Prod.fst) && wfChildren cs

/-- `wfNode` on every child. -/
def wfChildren : List (String × FNode) → Bool
  | [] => true
  | (_, e) :: r => wfNode e && wfChildren r

end

mutual

/-- Number of nodes of a tree (a recursion-depth bound for
`copyDirectory`). -/
def nodeSize : FNode → Nat
  | FNode.file _ => 1
  | FNode.dir cs => 1 + childSize cs

/-- Total size of a child list. -/
def childSize : List (String × FNode) → Nat
  | [] => 0
  | (_, e) :: r => nodeSize e + childSize r

end

/-- No suffix of the text starts with `pat`, i.e. `pat` does not occur
as a substring. -/
def noSub (pat : List Char) : List Char → Bool
  | [] => !(pat.isPrefixOf [])
  | c :: t => !(pat.isPrefixOf (c :: t)) && noSub pat t

/-- `pat` occurs as a substring. -/
def containsSub (pat : List Char) : List Char → Bool
  | [] => pat.isPrefixOf []
  | c :: t => pat.isPrefixOf (c :: t) || containsSub pat t

/-- The five characters `src="`. -/
def srcQ : List Char := "src=\"".toList

/-- The six characters `href="`. -/
def hrefQ : List Char := "href=\"".toList

/-- The bundler prefix `_expo/`. -/
def expoPfx : List Char := "_expo/".toList

/-- A root-relative asset reference in the entry file: `src="/x"` or
`href="/x"` with payload `x`. -/
inductive ARef where
  | src (x : List Char)
  | href (x : List Char)

/-- The payload of a reference. -/
def payload : ARef → List Char
  | ARef.src x => x
  | ARef.href x => x

/-- A reference as written in the input: with its leading slash. -/
def refTextA : ARef → List Char
  | ARef.src x => srcQ ++ '/' :: (x ++ [dq])
  | ARef.href x => hrefQ ++ '/' :: (x ++ [dq])

/-- A reference with the leading slash stripped. -/
def refTextB : ARef → List Char
  | ARef.src x => srcQ ++ (x ++ [dq])
  | ARef.href x => hrefQ ++ (x ++ [dq])

/-- A reference after its literal `_expo` pass: stripped when the
payload starts with the bundler prefix, untouched otherwise. -/
def rendLit (r : ARef) : List Char :=
  if expoPfx.isPrefixOf (payload r) then refTextB r else refTextA r

/-- Interleave literal chunks and rendered references:
`t ++ f r₁ ++ t₁ ++ f r₂ ++ t₂ ++ ...`. -/
def catWith (f : ARef → List Char) : List Char → List (ARef × List Char) → List Char
  | t, [] => t
  | t, (r, t2) :: rs => t ++ (f r ++ catWith f t2 rs)

/-- Rendering between the two literal passes: `src` references have had
their pass, `href` references not yet. -/
def rendSrcLit : ARef → List Char
  | ARef.src x => rendLit (ARef.src x)
  | ARef.href x => refTextA (ARef.href x)

/-- Rendering between the two generic passes: `src` references fully
stripped, `href` references after their literal pass only. -/
def rendSrcDone : ARef → List Char
  | ARef.src x => refTextB (ARef.src x)
  | ARef.href x => rendLit (ARef.href x)

/-- Rendering between the two generic passes when only those two run
(the generic-only pipeline): `src` references stripped by the first
generic pass, `href` references still as written. -/
def rendSrcGen : ARef → List Char
  | ARef.src x => refTextB (ARef.src x)
  | ARef.href x => refTextA (ARef.href x)

/-- A literal chunk is safe when neither `src="` nor `href="` occurs in
it (every attribute pattern of the four passes starts with one of the
two, so the scans walk straight through such text). -/
def chunkOk (t : List Char) : Bool :=
  noSub srcQ t && noSub hrefQ t

/-- A reference payload is safe: nonempty (the generic regex group is
`[^"]+`), quote-free (its closing quote is the first quote after it),
and not ending in `src=` or `href=` (so no attribute pattern spans its
closing quote). -/
def refSafe (x : List Char) : Bool :=
  !(x.isEmpty) && !(x.contains dq) &&
    !(("src=".toList).isSuffixOf x) && !(("href=".toList).isSuffixOf x)

/-- Safety of a whole decomposition. -/
def segsOk (t : List Char) (rs : List (ARef × List Char)) : Bool :=
  chunkOk t && rs.all (fun p => refSafe (payload p.1) && chunkOk p.2)

/-- The continuation after a chunk is empty or starts a reference
(first character `s` or `h`): an attribute pattern reaching past the
chunk would have to continue into it. -/
def headSH (f : List Char) : Prop :=
  f = [] ∨ f.head? = some 's' ∨ f.head? = some 'h'

/-- `config.xml` up to and including `version="`. -/
def tizenXmlPre : String :=
  "<?xml version=\"1.0\" encoding=\"UTF-8\"?>\n<widget xmlns=\"http://www.w3.org/ns/widgets\"\n        xmlns:tizen=\"http://tizen.org/ns/widgets\"\n        id=\"" ++
  "MultiTVExpoApp" ++ "\"\n        version=\""

/-- `config.xml` from the quote closing the version value on. -/
def tizenXmlPost : String :=
  "\"\n        viewmodes=\"maximized\">\n    <tizen:application id=\"" ++
  "multitv.expoapp" ++ "\" package=\"" ++ "MultiTVExpoApp" ++
  "\" required_version=\"6.0\"/>\n    <content src=\"" ++ "index.html" ++
  "\"/>\n    <feature name=\"http://tizen.org/feature/screen.size.normal.1080.1920\"/>\n    <icon src=\"" ++
  "icon.png" ++ "\"/>\n    <name>" ++ "Multi-TV App" ++
  "</name>\n    <tizen:profile name=\"tv-samsung\"/>\n    <tizen:privilege name=\"http://tizen.org/privilege/internet\"/>\n    <tizen:privilege name=\"http://tizen.org/privilege/application.launch\"/>\n    <tizen:setting screen-orientation=\"landscape\"\n                   context-menu=\"enable\"\n                   background-support=\"disable\"\n                   encryption=\"disable\"\n                   install-location=\"auto\"\n                   hwkey-event=\"enable\"/>\n    <description>" ++
  "Multi-platform TV application built with React Native" ++
  "</description>\n    <author email=\"" ++ "developer@multitv.com" ++
  "\"\n            href=\"" ++ "https://multitv.com" ++
  "\">\n        " ++ "Multi-TV" ++ "\n    </author>\n</widget>"

/-- `appinfo.json` up to the version value. -/
def webosJsonPre : String :=
  "\x7b\n  \"id\": " ++ jsonStr "com.multitv.expoapp" ++ ",\n  \"version\": "

/-- `appinfo.json` after the version value. -/
def webosJsonPost : String :=
  ",\n  \"vendor\": " ++ jsonStr "Multi-TV" ++
  ",\n  \"type\": " ++ jsonStr "web" ++
  ",\n  \"main\": " ++ jsonStr "index.html" ++
  ",\n  \"title\": " ++ jsonStr "Multi-TV App" ++
  ",\n  \"icon\": " ++ jsonStr "icon-80.png" ++
  ",\n  \"largeIcon\": " ++ jsonStr "icon-130.png" ++
  ",\n  \"bgImage\": " ++ jsonStr "splash.png" ++
  ",\n  \"appDescription\": " ++ jsonStr "Multi-platform TV application built with React Native" ++
  ",\n  \"resolution\": " ++ jsonStr "1920x1080" ++
  ",\n  \"disableBackHistoryAPI\": " ++ jsonBool true ++
  ",\n  \"handlesRelaunch\": " ++ jsonBool true ++ "\n\x7d"

/-! ## Helper lemmas: child lists -/

theorem getChild_setChild_self (cs : List (String × FNode)) (k : String) (v : FNode) :
    getChild (setChild cs k v) k = some v := by
  induction cs with
  | nil => simp [setChild, getChild]
  | cons e rest ih =>
    obtain ⟨n, x⟩ := e
    by_cases h : n = k <;> simp [setChild, getChild, h, ih]

theorem getChild_setChild_ne (cs : List (String × FNode)) (k a : String) (v : FNode)
    (h : k ≠ a) : getChild (setChild cs k v) a = getChild cs a := by
  induction cs with
  | nil => simp [setChild, getChild, h]
  | cons e rest ih =>
    obtain ⟨n, x⟩ := e
    by_cases hn : n = k
    · subst hn
      simp [setChild, getChild, h, ih]
    · simp only [setChild, if_neg hn]
      by_cases ha : n = a <;> simp [getChild, ha, ih]

theorem setChild_setChild (cs : List (String × FNode)) (k : String) (u v : FNode) :
    setChild (setChild cs k u) k v = setChild cs k v := by
  induction cs with
  | nil => simp [setChild]
  | cons e rest ih =>
    obtain ⟨n, x⟩ := e
    by_cases h : n = k <;> simp [setChild, h, ih]

theorem setChild_self (cs : List (String × FNode)) (k : String) (v : FNode)
    (h : getChild cs k = some v) : setChild cs k v = cs := by
  induction cs with
  | nil => simp [getChild] at h
  | cons e rest ih =>
    obtain ⟨n, x⟩ := e
    by_cases hn : n = k
    · subst hn
      simp [getChild] at h
      simp [setChild, h]
    · simp [getChild, hn] at h
      simp [setChild, hn, ih h]

theorem setChild_fresh (cs : List (String × FNode)) (k : String) (v : FNode)
    (h : getChild cs k = none) : setChild cs k v = cs ++ [(k, v)] := by
  induction cs with
  | nil => simp [setChild]
  | cons e rest ih =>
    obtain ⟨n, x⟩ := e
    by_cases hn : n = k
    · simp [getChild, hn] at h
    · simp [getChild, hn] at h
      simp [setChild, hn, ih h]

theorem getChild_delChild_self (cs : List (String × FNode)) (k : String) :
    getChild (delChild cs k) k = none := by
  induction cs with
  | nil => simp [delChild, getChild]
  | cons e rest ih =>
    obtain ⟨n, x⟩ := e
    by_cases h : n = k <;> simp [delChild, getChild, h, ih]

theorem getChild_delChild_ne (cs : List (String × FNode)) (k a : String)
    (h : k ≠ a) : getChild (delChild cs k) a = getChild cs a := by
  induction cs with
  | nil => simp [delChild]
  | cons e rest ih =>
    obtain ⟨n, x⟩ := e
    by_cases hn : n = k
    · subst hn
      simp [delChild, getChild, fun hh : n = a => h hh, ih]
    · simp only [delChild, if_neg hn]
      by_cases hna : n = a <;> simp [getChild, hna, ih]

theorem getChild_append_right (cs ds : List (String × FNode)) (k : String)
    (h : getChild cs k = none) : getChild (cs ++ ds) k = getChild ds k := by
  induction cs with
  | nil => simp
  | cons e rest ih =>
    obtain ⟨n, x⟩ := e
    by_cases hn : n = k
    · simp [getChild, hn] at h
    · simp [getChild, hn] at h ⊢
      exact ih h

theorem getChild_none_of_not_mem (cs : List (String × FNode)) (k : String)
    (h : ¬ k ∈ cs.map Prod.fst) : getChild cs k = none := by
  induction cs with
  | nil => simp [getChild]
  | cons e rest ih =>
    obtain ⟨n, x⟩ := e
    simp only [List.map_cons, List.mem_cons] at h
    push_neg at h
    have hnk : ¬ n = k := fun hh => h.1 hh.symm
    simp [getChild, hnk, ih h.2]

theorem noDupKeys_middle (l1 l2 : List String) (k : String)
    (h : noDupKeys (l1 ++ k :: l2) = true) : ¬ k ∈ l1 := by
  induction l1 with
  | nil => simp
  | cons a rest ih =>
    simp only [List.cons_append, noDupKeys, Bool.and_eq_true, Bool.not_eq_true'] at h
    intro hmem
    rcases List.mem_cons.mp hmem with rfl | hmem
    · have hk : (rest ++ k :: l2).contains k = true := by
        rw [List.contains_eq_any_beq]
        simp
      rw [show rest.append (k :: l2) = rest ++ k :: l2 from rfl, hk] at h
      exact absurd h.1 (by simp)
    · exact ih h.2 hmem

/-! ## Helper lemmas: path resolution and grafting -/

theorem lookup_append (fs : FNode) (p q : List String) :
    lookupNode fs (p ++ q) = (lookupNode fs p).bind (fun n => lookupNode n q) := by
  induction p generalizing fs with
  | nil => simp [lookupNode]
  | cons k p ih =>
    cases fs with
    | file c => simp [lookupNode]
    | dir cs =>
      simp only [List.cons_append, lookupNode]
      cases getChild cs k with
      | none => simp
      | some ch => simp [ih]

theorem graft_nil (fs : FNode) (v : FNode) : graft fs [] v = v := by
  cases fs <;> rfl

theorem pathFits_empty_dir (p : List String) : pathFits (FNode.dir []) p = true := by
  cases p <;> simp [pathFits, getChild]

theorem lookup_graft_self (p : List String) (fs v : FNode)
    (h : pathFits fs p = true) : lookupNode (graft fs p v) p = some v := by
  induction p generalizing fs with
  | nil => simp [graft, lookupNode]
  | cons k p ih =>
    cases fs with
    | file c => simp [pathFits] at h
    | dir cs =>
      simp only [graft, lookupNode, getChild_setChild_self]
      cases hg : getChild cs k with
      | none => exact ih _ (pathFits_empty_dir p)
      | some ch =>
        simp only [pathFits, hg] at h
        simp only [hg, Option.getD_some]
        exact ih _ h

theorem lookup_graft_diverge (p q : List String) (fs v : FNode)
    (h : Diverge p q) : lookupNode (graft fs q v) p = lookupNode fs p := by
  induction q generalizing fs p with
  | nil => exact absurd (List.nil_prefix) h.2
  | cons b q ih =>
    cases p with
    | nil => exact absurd (List.nil_prefix) h.1
    | cons a p =>
      cases fs with
      | file c => simp [graft]
      | dir cs =>
        by_cases hab : a = b
        · subst hab
          have hdiv : Diverge p q := by
            constructor
            · intro hpre
              exact h.1 (List.cons_prefix_cons.mpr ⟨rfl, hpre⟩)
            · intro hpre
              exact h.2 (List.cons_prefix_cons.mpr ⟨rfl, hpre⟩)
          simp only [graft, lookupNode, getChild_setChild_self]
          cases hg : getChild cs a with
          | none =>
            rw [ih _ _ hdiv]
            simp [lookupNode, hg]
            cases p with
            | nil => exact absurd List.nil_prefix hdiv.1
            | cons x xs => simp [lookupNode, getChild]
          | some ch => simp [ih _ _ hdiv]
        · simp only [graft, lookupNode]
          rw [getChild_setChild_ne _ _ _ _ (fun hh => hab hh.symm)]

theorem graft_graft_same (p : List String) (fs u v : FNode) :
    graft (graft fs p u) p v = graft fs p v := by
  induction p generalizing fs with
  | nil => simp [graft]
  | cons k p ih =>
    cases fs with
    | file c => simp [graft]
    | dir cs =>
      simp [graft, getChild_setChild_self, setChild_setChild, ih]

theorem graft_nest (q : List String) (fs : FNode) (ds : List (String × FNode))
    (k : String) (v : FNode) :
    graft (graft fs q (FNode.dir ds)) (q ++ [k]) v =
      graft fs q (FNode.dir (setChild ds k v)) := by
  induction q generalizing fs with
  | nil => simp [graft]
  | cons a q ih =>
    cases fs with
    | file c => simp [graft]
    | dir cs =>
      simp [graft, getChild_setChild_self, setChild_setChild, ih]

theorem graft_self_eq (p : List String) (fs v : FNode)
    (h : lookupNode fs p = some v) : graft fs p v = fs := by
  induction p generalizing fs with
  | nil => simp [lookupNode] at h; simp [graft, h]
  | cons k p ih =>
    cases fs with
    | file c => simp [lookupNode] at h
    | dir cs =>
      simp only [lookupNode] at h
      cases hg : getChild cs k with
      | none => rw [hg] at h; simp at h
      | some ch =>
        rw [hg] at h
        simp only [graft, hg, Option.getD_some, ih _ h]
        rw [setChild_self _ _ _ hg]

theorem pathFits_graft_append (p : List String) (fs : FNode)
    (ds : List (String × FNode)) (k : String)
    (hf : pathFits fs p = true) (hk : getChild ds k = none) :
    pathFits (graft fs p (FNode.dir ds)) (p ++ [k]) = true := by
  induction p generalizing fs with
  | nil => simp [graft, pathFits, hk]
  | cons a p ih =>
    cases fs with
    | file c => simp [pathFits] at hf
    | dir cs =>
      simp only [graft, List.cons_append, pathFits, getChild_setChild_self]
      cases hg : getChild cs a with
      | none => exact ih _ (pathFits_empty_dir p)
      | some ch =>
        simp only [pathFits, hg] at hf
        simp only [hg, Option.getD_some]
        exact ih _ hf

/-! ## Helper lemmas: the filesystem primitives -/

theorem mkdirp_noop (p : List String) (fs : FNode) (d : List (String × FNode))
    (h : lookupNode fs p = some (FNode.dir d)) : mkdirp fs p = some fs := by
  induction p generalizing fs with
  | nil =>
    cases fs with
    | file c => simp [lookupNode] at h
    | dir cs => simp [mkdirp]
  | cons k p ih =>
    cases fs with
    | file c => simp [lookupNode] at h
    | dir cs =>
      simp only [lookupNode] at h
      cases hg : getChild cs k with
      | none => rw [hg] at h; simp at h
      | some ch =>
        rw [hg] at h
        simp [mkdirp, hg, ih _ h, setChild_self _ _ _ hg]

theorem mkdirp_create (q : List String) (fs : FNode) (d : List (String × FNode))
    (k : String) (hq : lookupNode fs q = some (FNode.dir d))
    (hk : getChild d k = none) :
    mkdirp fs (q ++ [k]) = some (graft fs (q ++ [k]) (FNode.dir [])) := by
  induction q generalizing fs with
  | nil =>
    simp only [lookupNode] at hq
    cases hq
    simp [mkdirp, graft, hk]
  | cons a q ih =>
    cases fs with
    | file c => simp [lookupNode] at hq
    | dir cs =>
      simp only [lookupNode] at hq
      cases hg : getChild cs a with
      | none => rw [hg] at hq; simp at hq
      | some ch =>
        rw [hg] at hq
        simp [mkdirp, hg, graft, ih _ hq]

theorem mkdirp_empty_lookup (q : List String) (c : FNode)
    (h : mkdirp (FNode.dir []) q = some c) (p : List String)
    (hp : p ≠ []) (hd : Diverge p q) : lookupNode c p = none := by
  induction q generalizing c p with
  | nil =>
    simp [mkdirp] at h
    cases p with
    | nil => exact absurd rfl hp
    | cons a p => simp [← h, lookupNode, getChild]
  | cons b q ih =>
    simp only [mkdirp, getChild, Option.getD] at h
    cases hm : mkdirp (FNode.dir []) q with
    | none => rw [hm] at h; simp at h
    | some ch =>
      rw [hm] at h
      simp only [Option.bind_eq_bind, Option.some_bind] at h
      injection h with h2
      subst h2
      cases p with
      | nil => exact absurd rfl hp
      | cons a p =>
        by_cases hab : a = b
        · subst hab
          cases p with
          | nil => exact absurd (List.cons_prefix_cons.mpr ⟨rfl, List.nil_prefix⟩) hd.1
          | cons x xs =>
            have hdiv : Diverge (x :: xs) q := by
              constructor
              · intro hpre
                exact hd.1 (List.cons_prefix_cons.mpr ⟨rfl, hpre⟩)
              · intro hpre
                exact hd.2 (List.cons_prefix_cons.mpr ⟨rfl, hpre⟩)
            simp only [lookupNode, setChild, getChild, if_pos rfl]
            exact ih _ hm _ (by simp) hdiv
        · have hba : ¬ b = a := fun hh => hab hh.symm
          simp [lookupNode, setChild, getChild, hba]

theorem mkdirp_frame (q : List String) (fs fs' : FNode)
    (h : mkdirp fs q = some fs') (p : List String) (hd : Diverge p q) :
    lookupNode fs' p = lookupNode fs p := by
  induction q generalizing fs fs' p with
  | nil =>
    cases fs with
    | file c => simp [mkdirp] at h
    | dir cs => simp [mkdirp] at h; simp [← h]
  | cons b q ih =>
    cases fs with
    | file c => simp [mkdirp] at h
    | dir cs =>
      simp only [mkdirp] at h
      cases p with
      | nil => exact absurd (List.nil_prefix) hd.1
      | cons a p =>
        cases hm : mkdirp ((getChild cs b).getD (FNode.dir [])) q with
        | none => rw [hm] at h; simp at h
        | some ch =>
          rw [hm] at h
          simp only [Option.bind_eq_bind, Option.some_bind, Option.some.injEq] at h
          by_cases hab : a = b
          · subst hab
            have hdiv : Diverge p q := by
              constructor
              · intro hpre
                exact hd.1 (List.cons_prefix_cons.mpr ⟨rfl, hpre⟩)
              · intro hpre
                exact hd.2 (List.cons_prefix_cons.mpr ⟨rfl, hpre⟩)
            cases hg : getChild cs a with
            | none =>
              rw [hg] at hm
              simp only [Option.getD_none] at hm
              have hp : p ≠ [] := by
                intro hnil
                subst hnil
                exact hd.1 (List.cons_prefix_cons.mpr ⟨rfl, List.nil_prefix⟩)
              simp only [← h, lookupNode, getChild_setChild_self, hg]
              rw [mkdirp_empty_lookup q ch hm p hp hdiv]
            | some ch0 =>
              rw [hg] at hm
              simp only [Option.getD_some] at hm
              simp only [← h, lookupNode, getChild_setChild_self, hg]
              exact ih _ _ hm _ hdiv
          · simp only [← h, lookupNode]
            rw [getChild_setChild_ne _ _ _ _ (fun hh => hab hh.symm)]

theorem writeFile_graft (q : List String) (fs : FNode) (d : List (String × FNode))
    (k : String) (c : String) (hq : lookupNode fs q = some (FNode.dir d))
    (hk : getChild d k = none ∨ ∃ c0, getChild d k = some (FNode.file c0)) :
    writeFile fs (q ++ [k]) c = some (graft fs (q ++ [k]) (FNode.file c)) := by
  induction q generalizing fs with
  | nil =>
    simp only [lookupNode] at hq
    cases hq
    rcases hk with hk | ⟨c0, hk⟩ <;>
      simp [writeFile, graft, hk]
  | cons a q ih =>
    cases fs with
    | file cc => simp [lookupNode] at hq
    | dir cs =>
      simp only [lookupNode] at hq
      cases hg : getChild cs a with
      | none => rw [hg] at hq; simp at hq
      | some ch =>
        rw [hg] at hq
        simp only at hq
        obtain ⟨w, ws, hws⟩ : ∃ w ws, q ++ [k] = w :: ws := by
          cases q <;> exact ⟨_, _, rfl⟩
        rw [List.cons_append, hws]
        simp only [writeFile, hg, Option.bind_eq_bind, Option.some_bind]
        rw [← hws, ih _ hq]
        simp only [Option.bind_eq_bind, Option.some_bind, Option.some.injEq]
        simp [graft, hg]

theorem writeFile_frame (q : List String) (fs fs' : FNode) (c : String)
    (h : writeFile fs q c = some fs') (p : List String) (hd : Diverge p q) :
    lookupNode fs' p = lookupNode fs p := by
  induction q generalizing fs fs' p with
  | nil => simp [writeFile] at h
  | cons b q ih =>
    cases fs with
    | file cc => simp [writeFile] at h
    | dir cs =>
      cases p with
      | nil => exact absurd (List.nil_prefix) hd.1
      | cons a p =>
        by_cases hab : a = b
        · subst hab
          have hdiv : Diverge p q := by
            constructor
            · intro hpre
              exact hd.1 (List.cons_prefix_cons.mpr ⟨rfl, hpre⟩)
            · intro hpre
              exact hd.2 (List.cons_prefix_cons.mpr ⟨rfl, hpre⟩)
          cases q with
          | nil => exact absurd (List.cons_prefix_cons.mpr ⟨rfl, List.nil_prefix⟩) hd.2
          | cons w ws =>
            simp only [writeFile] at h
            cases hg : getChild cs a with
            | none => rw [hg] at h; simp at h
            | some ch =>
              rw [hg] at h
              simp only [Option.bind_eq_bind, Option.some_bind] at h
              cases hw : writeFile ch (w :: ws) c with
              | none => rw [hw] at h; simp at h
              | some ch2 =>
                rw [hw] at h
                simp only [Option.bind_eq_bind, Option.some_bind, Option.some.injEq] at h
                simp only [← h, lookupNode, getChild_setChild_self, hg]
                exact ih _ _ hw _ hdiv
        · cases q with
          | nil =>
            simp only [writeFile] at h
            cases hg : getChild cs b with
            | none =>
              rw [hg] at h
              simp only [Option.some.injEq] at h
              simp only [← h, lookupNode]
              rw [getChild_setChild_ne _ _ _ _ (fun hh => hab hh.symm)]
            | some ch =>
              rw [hg] at h
              cases ch with
              | file cc =>
                simp only [Option.some.injEq] at h
                simp only [← h, lookupNode]
                rw [getChild_setChild_ne _ _ _ _ (fun hh => hab hh.symm)]
              | dir dd => simp at h
          | cons w ws =>
            simp only [writeFile] at h
            cases hg : getChild cs b with
            | none => rw [hg] at h; simp at h
            | some ch =>
              rw [hg] at h
              simp only [Option.bind_eq_bind, Option.some_bind] at h
              cases hw : writeFile ch (w :: ws) c with
              | none => rw [hw] at h; simp at h
              | some ch2 =>
                rw [hw] at h
                simp only [Option.bind_eq_bind, Option.some_bind, Option.some.injEq] at h
                simp only [← h, lookupNode]
                rw [getChild_setChild_ne _ _ _ _ (fun hh => hab hh.symm)]

theorem rmrf_frame (q : List String) (fs : FNode) (p : List String)
    (hd : Diverge p q) : lookupNode (rmrf fs q) p = lookupNode fs p := by
  induction q generalizing fs p with
  | nil => exact absurd (List.nil_prefix) hd.2
  | cons b q ih =>
    cases fs with
    | file c => cases q <;> simp [rmrf]
    | dir cs =>
      cases p with
      | nil => exact absurd (List.nil_prefix) hd.1
      | cons a p =>
        by_cases hab : a = b
        · subst hab
          have hdiv : Diverge p q := by
            constructor
            · intro hpre
              exact hd.1 (List.cons_prefix_cons.mpr ⟨rfl, hpre⟩)
            · intro hpre
              exact hd.2 (List.cons_prefix_cons.mpr ⟨rfl, hpre⟩)
          cases q with
          | nil => exact absurd (List.cons_prefix_cons.mpr ⟨rfl, List.nil_prefix⟩) hd.2
          | cons w ws =>
            simp only [rmrf]
            cases hg : getChild cs a with
            | none => simp [lookupNode, hg]
            | some ch =>
              simp only [lookupNode, getChild_setChild_self, hg]
              exact ih _ _ hdiv
        · cases q with
          | nil =>
            simp only [rmrf, lookupNode]
            rw [getChild_delChild_ne _ _ _ (fun hh => hab hh.symm)]
          | cons w ws =>
            simp only [rmrf]
            cases hg : getChild cs b with
            | none => rfl
            | some ch =>
              simp only [lookupNode]
              rw [getChild_setChild_ne _ _ _ _ (fun hh => hab hh.symm)]

/-! ## Helper lemmas: divergence, sizes, well-formedness -/

theorem except_bind_ok {ε α β : Type _} (a : α) (f : α → Except ε β) :
    (Except.ok a >>= f) = f a := rfl

theorem except_bind_error {ε α β : Type _} (e : ε) (f : α → Except ε β) :
    ((Except.error e : Except ε α) >>= f) = Except.error e := rfl

theorem diverge_symm {p q : List String} (h : Diverge p q) : Diverge q p :=
  ⟨h.2, h.1⟩

theorem diverge_extend_right {p q : List String} (k : String) (h : Diverge p q) :
    Diverge p (q ++ [k]) := by
  constructor
  · intro hpre
    by_cases hlen : p.length ≤ q.length
    · exact h.1 (List.prefix_of_prefix_length_le hpre (List.prefix_append q [k]) hlen)
    · have hlen2 : p.length = (q ++ [k]).length := by
        have := hpre.length_le
        simp only [List.length_append, List.length_cons, List.length_nil] at this ⊢
        omega
      have heq := hpre.eq_of_length hlen2
      subst heq
      exact h.2 (List.prefix_append q [k])
  · intro hpre
    exact h.2 ((List.prefix_append q [k]).trans hpre)

theorem diverge_extend_left {p q : List String} (k : String) (h : Diverge p q) :
    Diverge (p ++ [k]) q :=
  diverge_symm (diverge_extend_right k (diverge_symm h))

theorem diverge_extend_both {p q : List String} (a b : String) (h : Diverge p q) :
    Diverge (p ++ [a]) (q ++ [b]) :=
  diverge_extend_right b (diverge_extend_left a h)

theorem nodeSize_pos (n : FNode) : 1 ≤ nodeSize n := by
  cases n <;> simp [nodeSize]

theorem nodeSize_le_childSize (cs : List (String × FNode)) (k : String) (v : FNode)
    (h : getChild cs k = some v) : nodeSize v ≤ childSize cs := by
  induction cs with
  | nil => simp [getChild] at h
  | cons e rest ih =>
    obtain ⟨n, x⟩ := e
    by_cases hn : n = k
    · simp only [getChild, if_pos hn] at h
      injection h with h2
      subst h2
      simp only [childSize]
      exact Nat.le_add_right _ _
    · simp only [getChild, if_neg hn] at h
      have := ih h
      simp only [childSize]
      omega

theorem wfChildren_getChild (cs : List (String × FNode)) (k : String) (v : FNode)
    (hwf : wfChildren cs = true) (h : getChild cs k = some v) : wfNode v = true := by
  induction cs with
  | nil => simp [getChild] at h
  | cons e rest ih =>
    obtain ⟨n, x⟩ := e
    simp only [wfChildren, Bool.and_eq_true] at hwf
    by_cases hn : n = k
    · simp only [getChild, if_pos hn] at h
      injection h with h2
      subst h2
      exact hwf.1
    · simp only [getChild, if_neg hn] at h
      exact ih hwf.2 h

/-! ## The recursive copy: frame and fidelity -/

/-- One unfolding of `copyDirectory`, with the loop body named. -/
theorem copyDirectory_succ (fuel : Nat) (fs : FNode) (src dest : List String) :
    copyDirectory (fuel + 1) fs src dest =
      (match mkdirp fs dest with
       | none => Except.error fs
       | some fs1 =>
         match readdirTyped fs1 src with
         | none => Except.error fs1
         | some entries => entries.foldlM (copyStep fuel src dest) fs1) := rfl

/-- `copyDirectory` never touches anything outside its destination
subtree. -/
theorem copyDirectory_frame : ∀ (fuel : Nat) (fs : FNode) (src dest : List String)
    (fs' : FNode), copyDirectory fuel fs src dest = Except.ok fs' →
    ∀ p, Diverge p dest → lookupNode fs' p = lookupNode fs p := by
  intro fuel
  induction fuel with
  | zero =>
    intro fs src dest fs' h
    simp [copyDirectory] at h
  | succ fuel ih =>
    intro fs src dest fs' h p hd
    rw [copyDirectory_succ] at h
    split at h
    · simp at h
    next fs1 hm =>
      split at h
      · simp at h
      next entries hr =>
        have hfold : ∀ (es : List (String × Bool)) (acc fsO : FNode),
            List.foldlM (copyStep fuel src dest) acc es = Except.ok fsO →
            lookupNode fsO p = lookupNode acc p := by
          intro es
          induction es with
          | nil =>
            intro acc fsO hfo
            simp only [List.foldlM_nil] at hfo
            injection hfo with h2
            rw [h2]
          | cons e es ihe =>
            intro acc fsO hfo
            rw [List.foldlM_cons] at hfo
            by_cases he : e.2 = true
            · rw [show copyStep fuel src dest acc e =
                  copyDirectory fuel acc (src ++ [e.1]) (dest ++ [e.1]) by
                  simp [copyStep, he]] at hfo
              cases hs : copyDirectory fuel acc (src ++ [e.1]) (dest ++ [e.1]) with
              | error a => rw [hs, except_bind_error] at hfo; simp at hfo
              | ok acc1 =>
                rw [hs, except_bind_ok] at hfo
                rw [ihe acc1 fsO hfo]
                exact ih acc (src ++ [e.1]) (dest ++ [e.1]) acc1 hs p
                  (diverge_extend_right e.1 hd)
            · rw [show copyStep fuel src dest acc e =
                  (match readFile acc (src ++ [e.1]) with
                   | none => Except.error acc
                   | some c =>
                     match writeFile acc (dest ++ [e.1]) c with
                     | none => Except.error acc
                     | some acc2 => Except.ok acc2) by
                  simp [copyStep, he]] at hfo
              split at hfo
              · rw [except_bind_error] at hfo
                simp at hfo
              next c hrf =>
                split at hfo
                · rw [except_bind_error] at hfo
                  simp at hfo
                next acc2 hw =>
                  rw [except_bind_ok] at hfo
                  rw [ihe acc2 fsO hfo]
                  exact writeFile_frame _ _ _ _ hw p (diverge_extend_right e.1 hd)
        rw [hfold entries fs1 fs' h]
        exact mkdirp_frame dest fs fs1 hm p hd

/-- `copyDirectory` from a well-formed source directory into a fresh
destination reproduces the source tree exactly: the result is the
original filesystem with the whole source subtree grafted at the
destination. -/
theorem copyDirectory_ok : ∀ (fuel : Nat) (fs : FNode) (src dest : List String)
    (T : FNode),
    lookupNode fs src = some T →
    isDirNode T = true →
    wfNode T = true →
    nodeSize T ≤ fuel →
    Diverge src dest →
    mkdirp fs dest = some (graft fs dest (FNode.dir [])) →
    pathFits fs dest = true →
    copyDirectory fuel fs src dest = Except.ok (graft fs dest T) := by
  intro fuel
  induction fuel with
  | zero =>
    intro fs src dest T _ _ _ hsz _ _ _
    have := nodeSize_pos T
    omega
  | succ fuel ih =>
    intro fs src dest T hsrc hdir hwf hsz hdiv hmk hfits
    obtain ⟨cs, rfl⟩ : ∃ cs, T = FNode.dir cs := by
      cases T with
      | file c => simp [isDirNode] at hdir
      | dir cs => exact ⟨cs, rfl⟩
    rw [copyDirectory_succ]
    have hl : lookupNode (graft fs dest (FNode.dir [])) src = some (FNode.dir cs) := by
      rw [lookup_graft_diverge src dest _ _ hdiv]
      exact hsrc
    simp only [hmk, readdirTyped, hl]
    simp only [wfNode, Bool.and_eq_true] at hwf
    have key : ∀ (es done : List (String × FNode)),
        cs = done ++ es →
        List.foldlM (copyStep fuel src dest)
          (graft fs dest (FNode.dir done))
          (es.map (fun e => (e.1, isDirNode e.2))) =
          Except.ok (graft fs dest (FNode.dir (done ++ es))) := by
      intro es
      induction es with
      | nil =>
        intro done hcs
        simp only [List.foldlM_nil, List.append_nil]
        rfl
      | cons e es ihe =>
        intro done hcs
        obtain ⟨n, child⟩ := e
        have hnd : ¬ n ∈ done.map Prod.fst := by
          apply noDupKeys_middle (done.map Prod.fst) (es.map Prod.fst) n
          have : cs.map Prod.fst = done.map Prod.fst ++ n :: es.map Prod.fst := by
            rw [hcs]
            simp
          rw [← this]
          exact hwf.1
        have hgdone : getChild done n = none := getChild_none_of_not_mem _ _ hnd
        have haccdest : lookupNode (graft fs dest (FNode.dir done)) dest =
            some (FNode.dir done) := lookup_graft_self _ _ _ hfits
        have hgcs : getChild cs n = some child := by
          rw [hcs, getChild_append_right _ _ _ hgdone]
          simp [getChild]
        have hchild : lookupNode (graft fs dest (FNode.dir done)) (src ++ [n]) =
            some child := by
          rw [lookup_graft_diverge _ _ _ _ (diverge_extend_left n hdiv)]
          rw [lookup_append, hsrc]
          simp [lookupNode, hgcs]
        have hchwf : wfNode child = true :=
          wfChildren_getChild _ _ _ hwf.2 hgcs
        have hchsz : nodeSize child ≤ fuel := by
          have h1 := nodeSize_le_childSize cs n child hgcs
          simp only [nodeSize] at hsz
          omega
        rw [List.map_cons, List.foldlM_cons]
        cases child with
        | dir ccs =>
          rw [show copyStep fuel src dest (graft fs dest (FNode.dir done))
              (n, isDirNode (FNode.dir ccs)) =
              copyDirectory fuel (graft fs dest (FNode.dir done))
                (src ++ [n]) (dest ++ [n]) by
            simp [copyStep, isDirNode]]
          have hstep := ih (graft fs dest (FNode.dir done)) (src ++ [n])
            (dest ++ [n]) (FNode.dir ccs) hchild rfl hchwf hchsz
            (diverge_extend_both n n hdiv)
            (mkdirp_create dest _ done n haccdest hgdone)
            (pathFits_graft_append dest fs done n hfits hgdone)
          rw [hstep, except_bind_ok]
          rw [graft_nest, setChild_fresh _ _ _ hgdone]
          have hnext := ihe (done ++ [(n, FNode.dir ccs)]) (by rw [hcs]; simp)
          rw [hnext]
          simp
        | file c =>
          have hrf : readFile (graft fs dest (FNode.dir done)) (src ++ [n]) =
              some c := by
            simp [readFile, hchild]
          have hw : writeFile (graft fs dest (FNode.dir done)) (dest ++ [n]) c =
              some (graft (graft fs dest (FNode.dir done)) (dest ++ [n])
                (FNode.file c)) :=
            writeFile_graft dest _ done n c haccdest (Or.inl hgdone)
          rw [show copyStep fuel src dest (graft fs dest (FNode.dir done))
              (n, isDirNode (FNode.file c)) =
              Except.ok (graft (graft fs dest (FNode.dir done)) (dest ++ [n])
                (FNode.file c)) by
            simp [copyStep, isDirNode, hrf, hw]]
          rw [except_bind_ok]
          rw [graft_nest, setChild_fresh _ _ _ hgdone]
          have hnext := ihe (done ++ [(n, FNode.file c)]) (by rw [hcs]; simp)
          rw [hnext]
          simp
    have hfin := key cs [] (by simp)
    simp only [List.nil_append] at hfin
    exact hfin

/-! ## Helper lemmas: the staging pipelines -/

theorem pathFits_dir_single (l : List (String × FNode)) (k : String) :
    pathFits (FNode.dir l) [k] = true := by
  simp only [pathFits]
  cases getChild l k <;> simp [pathFits]

theorem stepThen_ok (r : Except (FNode × List String) (FNode × List String))
    (next : FNode → Except (FNode × List String) (FNode × List String))
    (fs' : FNode) (l' : List String) (h : stepThen r next = Except.ok (fs', l')) :
    ∃ fs l l2, r = Except.ok (fs, l) ∧ next fs = Except.ok (fs', l2) ∧
      l' = l ++ l2 := by
  cases r with
  | error e => simp [stepThen] at h
  | ok a =>
    obtain ⟨fs, l⟩ := a
    simp only [stepThen] at h
    cases hn : next fs with
    | error e => rw [hn] at h; simp at h
    | ok b =>
      obtain ⟨fs2, l2⟩ := b
      rw [hn] at h
      simp only [Except.ok.injEq, Prod.mk.injEq] at h
      exact ⟨fs, l, l2, rfl, by rw [hn, h.1], h.2.symm⟩

theorem tizen_copyDistFiles_ok (fuel : Nat) (rcs cs : List (String × FNode))
    (hdist : lookupNode (FNode.dir rcs) distPath = some (FNode.dir cs))
    (hwf : wfNode (FNode.dir cs) = true)
    (hfuel : nodeSize (FNode.dir cs) ≤ fuel) :
    Tizen.copyDistFiles fuel (FNode.dir rcs) =
      Except.ok
        (graft (if existsNode (FNode.dir rcs) tizenPath
            then rmrf (FNode.dir rcs) tizenPath else FNode.dir rcs)
          tizenPath (FNode.dir cs),
         ["✓ Copied dist files to Tizen build directory"]) := by
  have hex : existsNode (FNode.dir rcs) distPath = true := by
    simp [existsNode, hdist]
  have hdivdt : Diverge distPath tizenPath := by decide
  obtain ⟨rcs1, hfs1d, hget1⟩ : ∃ rcs1,
      (if existsNode (FNode.dir rcs) tizenPath
        then rmrf (FNode.dir rcs) tizenPath else FNode.dir rcs) = FNode.dir rcs1 ∧
      getChild rcs1 "tizen-build" = none := by
    by_cases hx : existsNode (FNode.dir rcs) tizenPath
    · refine ⟨delChild rcs "tizen-build", ?_, getChild_delChild_self _ _⟩
      rw [if_pos hx]
      simp [rmrf, tizenPath]
    · refine ⟨rcs, by simp [hx], ?_⟩
      have hlk : lookupNode (FNode.dir rcs) tizenPath = none := by
        cases hl : lookupNode (FNode.dir rcs) tizenPath with
        | none => rfl
        | some v => simp [existsNode, hl] at hx
      simp only [tizenPath, lookupNode] at hlk
      cases hg : getChild rcs "tizen-build" with
      | none => rfl
      | some ch => rw [hg] at hlk; simp [lookupNode] at hlk
  have hmk1 : mkdirp (FNode.dir rcs1) tizenPath =
      some (graft (FNode.dir rcs1) tizenPath (FNode.dir [])) := by
    have := mkdirp_create [] (FNode.dir rcs1) rcs1 "tizen-build" (by simp [lookupNode]) hget1
    simpa [tizenPath] using this
  have hlookup2 : lookupNode (graft (FNode.dir rcs1) tizenPath (FNode.dir []))
      distPath = some (FNode.dir cs) := by
    rw [lookup_graft_diverge _ _ _ _ hdivdt]
    rw [← hfs1d]
    by_cases hx : existsNode (FNode.dir rcs) tizenPath
    · simp only [hx, if_true]
      rw [rmrf_frame _ _ _ hdivdt]
      exact hdist
    · simp only [hx, if_false]
      exact hdist
  have hfits2 : pathFits (graft (FNode.dir rcs1) tizenPath (FNode.dir []))
      tizenPath = true := by
    simp only [tizenPath, graft]
    exact pathFits_dir_single _ _
  have htz2 : lookupNode (graft (FNode.dir rcs1) tizenPath (FNode.dir []))
      tizenPath = some (FNode.dir []) :=
    lookup_graft_self _ _ _ (pathFits_dir_single _ _)
  have hmk2 : mkdirp (graft (FNode.dir rcs1) tizenPath (FNode.dir []))
      tizenPath = some (graft (graft (FNode.dir rcs1) tizenPath (FNode.dir []))
        tizenPath (FNode.dir [])) := by
    rw [mkdirp_noop _ _ _ htz2, graft_self_eq _ _ _ htz2]
  have hcopy := copyDirectory_ok fuel
    (graft (FNode.dir rcs1) tizenPath (FNode.dir [])) distPath tizenPath
    (FNode.dir cs) hlookup2 rfl hwf hfuel hdivdt hmk2 hfits2
  simp only [Tizen.copyDistFiles, hex, Bool.true_eq_false, if_false, hfs1d,
    hmk1, hcopy, graft_graft_same]

theorem webos_copyDistFiles_ok (fuel : Nat) (rcs cs : List (String × FNode))
    (hdist : lookupNode (FNode.dir rcs) distPath = some (FNode.dir cs))
    (hwf : wfNode (FNode.dir cs) = true)
    (hfuel : nodeSize (FNode.dir cs) ≤ fuel) :
    WebOS.copyDistFiles fuel (FNode.dir rcs) =
      Except.ok
        (graft (if existsNode (FNode.dir rcs) webosPath
            then rmrf (FNode.dir rcs) webosPath else FNode.dir rcs)
          webosPath (FNode.dir cs),
         ["✓ Copied dist files to webOS build directory"]) := by
  have hex : existsNode (FNode.dir rcs) distPath = true := by
    simp [existsNode, hdist]
  have hdivdt : Diverge distPath webosPath := by decide
  obtain ⟨rcs1, hfs1d, hget1⟩ : ∃ rcs1,
      (if existsNode (FNode.dir rcs) webosPath
        then rmrf (FNode.dir rcs) webosPath else FNode.dir rcs) = FNode.dir rcs1 ∧
      getChild rcs1 "webos-build" = none := by
    by_cases hx : existsNode (FNode.dir rcs) webosPath
    · refine ⟨delChild rcs "webos-build", ?_, getChild_delChild_self _ _⟩
      rw [if_pos hx]
      simp [rmrf, webosPath]
    · refine ⟨rcs, by simp [hx], ?_⟩
      have hlk : lookupNode (FNode.dir rcs) webosPath = none := by
        cases hl : lookupNode (FNode.dir rcs) webosPath with
        | none => rfl
        | some v => simp [existsNode, hl] at hx
      simp only [webosPath, lookupNode] at hlk
      cases hg : getChild rcs "webos-build" with
      | none => rfl
      | some ch => rw [hg] at hlk; simp [lookupNode] at hlk
  have hmk1 : mkdirp (FNode.dir rcs1) webosPath =
      some (graft (FNode.dir rcs1) webosPath (FNode.dir [])) := by
    have := mkdirp_create [] (FNode.dir rcs1) rcs1 "webos-build" (by simp [lookupNode]) hget1
    simpa [webosPath] using this
  have hlookup2 : lookupNode (graft (FNode.dir rcs1) webosPath (FNode.dir []))
      distPath = some (FNode.dir cs) := by
    rw [lookup_graft_diverge _ _ _ _ hdivdt]
    rw [← hfs1d]
    by_cases hx : existsNode (FNode.dir rcs) webosPath
    · simp only [hx, if_true]
      rw [rmrf_frame _ _ _ hdivdt]
      exact hdist
    · simp only [hx, if_false]
      exact hdist
  have hfits2 : pathFits (graft (FNode.dir rcs1) webosPath (FNode.dir []))
      webosPath = true := by
    simp only [webosPath, graft]
    exact pathFits_dir_single _ _
  have htz2 : lookupNode (graft (FNode.dir rcs1) webosPath (FNode.dir []))
      webosPath = some (FNode.dir []) :=
    lookup_graft_self _ _ _ (pathFits_dir_single _ _)
  have hmk2 : mkdirp (graft (FNode.dir rcs1) webosPath (FNode.dir []))
      webosPath = some (graft (graft (FNode.dir rcs1) webosPath (FNode.dir []))
        webosPath (FNode.dir [])) := by
    rw [mkdirp_noop _ _ _ htz2, graft_self_eq _ _ _ htz2]
  have hcopy := copyDirectory_ok fuel
    (graft (FNode.dir rcs1) webosPath (FNode.dir [])) distPath webosPath
    (FNode.dir cs) hlookup2 rfl hwf hfuel hdivdt hmk2 hfits2
  simp only [WebOS.copyDistFiles, hex, Bool.true_eq_false, if_false, hfs1d,
    hmk1, hcopy, graft_graft_same]

theorem tizen_copyDistFiles_frame (fuel : Nat) (fs0 fsA : FNode) (lA : List String)
    (h : Tizen.copyDistFiles fuel fs0 = Except.ok (fsA, lA)) (p : List String)
    (hd : Diverge p tizenPath) : lookupNode fsA p = lookupNode fs0 p := by
  simp only [Tizen.copyDistFiles] at h
  by_cases hex : existsNode fs0 distPath = false
  · rw [if_pos hex] at h
    simp at h
  · rw [if_neg hex] at h
    split at h
    · simp at h
    next fs2 hmk =>
      split at h
      · simp at h
      next fs3 hcopy =>
        simp only [Except.ok.injEq, Prod.mk.injEq] at h
        rw [← h.1, copyDirectory_frame fuel _ _ _ _ hcopy p hd,
          mkdirp_frame _ _ _ hmk p hd]
        by_cases hx : existsNode fs0 tizenPath
        · simp only [hx, if_true]
          exact rmrf_frame _ _ _ hd
        · simp [hx]

theorem tizen_fixIndex_frame (fsA fsB : FNode) (lB : List String)
    (h : Tizen.fixIndexHtmlPaths fsA = Except.ok (fsB, lB)) (p : List String)
    (hd : Diverge p tizenPath) : lookupNode fsB p = lookupNode fsA p := by
  simp only [Tizen.fixIndexHtmlPaths] at h
  by_cases hex : existsNode fsA (tizenPath ++ ["index.html"]) = false
  · rw [if_pos hex] at h
    simp only [Except.ok.injEq, Prod.mk.injEq] at h
    rw [← h.1]
  · rw [if_neg hex] at h
    split at h
    · simp at h
    next content hrd =>
      split at h
      · simp at h
      next fs1 hw =>
        simp only [Except.ok.injEq, Prod.mk.injEq] at h
        rw [← h.1]
        exact writeFile_frame _ _ _ _ hw p (diverge_extend_right _ hd)

theorem tizen_createConfig_frame (pj : PackageJson) (fsA fsB : FNode)
    (lB : List String) (h : Tizen.createConfigXml pj fsA = Except.ok (fsB, lB))
    (p : List String) (hd : Diverge p tizenPath) :
    lookupNode fsB p = lookupNode fsA p := by
  simp only [Tizen.createConfigXml] at h
  split at h
  · simp at h
  next fs1 hw =>
    simp only [Except.ok.injEq, Prod.mk.injEq] at h
    rw [← h.1]
    exact writeFile_frame _ _ _ _ hw p (diverge_extend_right _ hd)

theorem tizen_staged3_frame (fuel : Nat) (pj : PackageJson) (fs0 fs3 : FNode)
    (l3 : List String) (h : Tizen.staged3 fuel pj fs0 = Except.ok (fs3, l3))
    (p : List String) (hd : Diverge p tizenPath) :
    lookupNode fs3 p = lookupNode fs0 p := by
  simp only [Tizen.staged3] at h
  obtain ⟨fsB, lB, lC, hB, hC, _⟩ := stepThen_ok _ _ _ _ h
  obtain ⟨fsA, lA, lB2, hA, hB2, _⟩ := stepThen_ok _ _ _ _ hB
  rw [tizen_createConfig_frame pj fsB fs3 lC hC p hd,
    tizen_fixIndex_frame fsA fsB lB2 hB2 p hd,
    tizen_copyDistFiles_frame fuel fs0 fsA lA hA p hd]

/-! ## Helper lemmas: the generated descriptors around their version -/

/-- `config.xml` is exactly the fixed text around the configured
version. -/
theorem configXml_version_split (pj : PackageJson) :
    configXmlContent (TIZEN_CONFIG pj) =
      tizenXmlPre ++ ((TIZEN_CONFIG pj).version ++ tizenXmlPost) := by
  simp [configXmlContent, TIZEN_CONFIG, tizenXmlPre, tizenXmlPost, String.append_assoc]

/-- `appinfo.json` is exactly the fixed text around the serialized
configured version. -/
theorem appInfo_version_split (pj : PackageJson) :
    appInfoContent (WEBOS_CONFIG pj) =
      webosJsonPre ++ (jsonStr (WEBOS_CONFIG pj).version ++ webosJsonPost) := by
  simp [appInfoContent, WEBOS_CONFIG, webosJsonPre, webosJsonPost, String.append_assoc]

/-! ## Helper lemmas: the scanning passes of `fixIndexHtmlPaths`

The four global replacements are left-to-right scans.  The lemmas below
describe one scan step (match, or no match and advance one character),
then show that a scan walks unchanged through text in which its pattern
cannot occur, and fires exactly once on a rendered asset reference. -/

theorem replaceLit_no_match (pat repl : List Char) (c : Char) (t : List Char)
    (h : ¬ pat <+: (c :: t)) :
    replaceLit pat repl (c :: t) = c :: replaceLit pat repl t := by
  rw [replaceLit]
  rw [dif_neg]
  intro hc
  exact h (List.isPrefixOf_iff_prefix.mp hc.2)

theorem replaceLit_match (pat repl r : List Char) (hne : pat ≠ []) :
    replaceLit pat repl (pat ++ r) = repl ++ replaceLit pat repl r := by
  obtain ⟨p, ps, rfl⟩ : ∃ p ps, pat = p :: ps := by
    cases pat with
    | nil => exact absurd rfl hne
    | cons p ps => exact ⟨p, ps, rfl⟩
  rw [List.cons_append, replaceLit, dif_pos]
  · have hdrop : ((p :: ps) ++ r).drop (p :: ps).length = r := List.drop_left _ _
    rw [List.cons_append] at hdrop
    rw [hdrop]
  · refine ⟨by simp, ?_⟩
    rw [List.isPrefixOf_iff_prefix, ← List.cons_append]
    exact List.prefix_append _ _

theorem strip_no_match (attr : List Char) (c : Char) (t : List Char)
    (h : ¬ (attr ++ dq :: '/' :: []) <+: (c :: t)) :
    stripAttrSlash attr (c :: t) = c :: stripAttrSlash attr t := by
  rw [stripAttrSlash]
  rw [if_neg]
  intro hc
  exact h (List.isPrefixOf_iff_prefix.mp hc)

theorem takeWhile_no_dq (x : List Char) (hx : ¬ dq ∈ x) (r : List Char) :
    (x ++ dq :: r).takeWhile (fun ch => ch ≠ dq) = x := by
  induction x with
  | nil => simp [List.takeWhile_cons]
  | cons c x' ih =>
    simp only [List.mem_cons, not_or] at hx
    have hc : ¬ c = dq := fun hh => hx.1 hh.symm
    rw [List.cons_append, List.takeWhile_cons_of_pos (by simpa using hc), ih hx.2]

theorem strip_match (attr x r : List Char) (hattr : attr ≠ [])
    (hxne : x ≠ []) (hxdq : ¬ dq ∈ x) :
    stripAttrSlash attr ((attr ++ dq :: '/' :: []) ++ (x ++ dq :: r)) =
      attr ++ dq :: (x ++ dq :: stripAttrSlash attr r) := by
  obtain ⟨a, attr2, rfl⟩ : ∃ a attr2, attr = a :: attr2 := by
    cases attr with
    | nil => exact absurd rfl hattr
    | cons a attr2 => exact ⟨a, attr2, rfl⟩
  have hform : ((a :: attr2) ++ dq :: '/' :: []) ++ (x ++ dq :: r) =
      a :: (attr2 ++ dq :: '/' :: (x ++ dq :: r)) := by simp
  have hpre : ((a :: attr2) ++ dq :: '/' :: []).isPrefixOf
      (a :: (attr2 ++ dq :: '/' :: (x ++ dq :: r))) = true := by
    rw [List.isPrefixOf_iff_prefix, ← hform]
    exact List.prefix_append _ _
  have hdrop : (a :: (attr2 ++ dq :: '/' :: (x ++ dq :: r))).drop
      ((a :: attr2).length + 2) = x ++ dq :: r := by
    rw [← hform,
      show (a :: attr2).length + 2 = ((a :: attr2) ++ dq :: '/' :: []).length from
        by simp]
    exact List.drop_left _ _
  have htw := takeWhile_no_dq x hxdq r
  have hdrop2 : (x ++ dq :: r).drop x.length = dq :: r := List.drop_left _ _
  rw [hform, stripAttrSlash, if_pos hpre]
  simp only [hdrop, htw, hdrop2]
  split
  next ch t2 heq =>
    rw [hdrop, htw, hdrop2] at heq
    injection heq with h1 h2
    subst h1
    subst h2
    rw [if_pos ⟨hxne, rfl⟩]
  next heq =>
    rw [hdrop, htw, hdrop2] at heq
    simp at heq

theorem nqCore (q x f : List Char) (hq : q ≠ []) (hqdq : ¬ dq ∈ q)
    (hxdq : ¬ dq ∈ x) (hsuf : ¬ q <:+ x) :
    ¬ (q ++ [dq]) <+: (x ++ dq :: f) := by
  intro h
  have hxpfx : x <+: (x ++ dq :: f) := List.prefix_append _ _
  by_cases h1 : q.length + 1 ≤ x.length
  · have hpx : (q ++ [dq]) <+: x :=
      List.prefix_of_prefix_length_le h hxpfx
        (by simp only [List.length_append, List.length_cons, List.length_nil]; omega)
    exact hxdq (hpx.subset (by simp))
  · by_cases h2 : q.length ≤ x.length
    · have hql : q.length = x.length := by omega
      have hqpfx : q <+: (x ++ dq :: f) := (List.prefix_append q [dq]).trans h
      have hqx : q <+: x := List.prefix_of_prefix_length_le hqpfx hxpfx hql.le
      have hqe : q = x := hqx.eq_of_length hql
      exact hsuf (hqe ▸ List.suffix_rfl)
    · have hxdq2 : (x ++ [dq]) <+: (x ++ dq :: f) := ⟨f, by simp⟩
      have hqpfx : q <+: (x ++ dq :: f) := (List.prefix_append q [dq]).trans h
      have hpq : (x ++ [dq]) <+: q :=
        List.prefix_of_prefix_length_le hxdq2 hqpfx
          (by simp only [List.length_append, List.length_cons, List.length_nil]; omega)
      exact hqdq (hpq.subset (by simp))

theorem noDqPatMatch (P x f : List Char) (hP : ¬ dq ∈ P) (hpre : ¬ P <+: x)
    (hxdq : ¬ dq ∈ x) : ¬ P <+: (x ++ dq :: f) := by
  intro h
  have hxpfx : x <+: (x ++ dq :: f) := List.prefix_append _ _
  by_cases h1 : P.length ≤ x.length
  · exact hpre (List.prefix_of_prefix_length_le h hxpfx h1)
  · have hxdq2 : (x ++ [dq]) <+: (x ++ dq :: f) := ⟨f, by simp⟩
    have hpq : (x ++ [dq]) <+: P :=
      List.prefix_of_prefix_length_le hxdq2 h
        (by simp only [List.length_append, List.length_cons, List.length_nil]; omega)
    exact hP (hpq.subset (by simp))

theorem spanQ (Q u f : List Char) (hQ : ¬ Q <+: u)
    (htail : ∀ c ∈ Q.drop 1, c ≠ 's' ∧ c ≠ 'h') (hu : u ≠ [])
    (hf : headSH f) : ¬ Q <+: (u ++ f) := by
  intro h
  have hupfx : u <+: (u ++ f) := List.prefix_append _ _
  by_cases h1 : Q.length ≤ u.length
  · exact hQ (List.prefix_of_prefix_length_le h hupfx h1)
  · rcases hf with rfl | hf
    · simp only [List.append_nil] at h
      exact hQ h
    · obtain ⟨c, f', rfl⟩ : ∃ c f', f = c :: f' := by
        cases f with
        | nil => simp at hf
        | cons c f' => exact ⟨c, f', rfl⟩
      have hc : c = 's' ∨ c = 'h' := by
        rcases hf with hf | hf <;> simp only [List.head?_cons,
          Option.some.injEq] at hf
        · exact Or.inl hf
        · exact Or.inr hf
      have hucpfx : (u ++ [c]) <+: (u ++ c :: f') := ⟨f', by simp⟩
      have hpq : (u ++ [c]) <+: Q :=
        List.prefix_of_prefix_length_le hucpfx h
          (by simp only [List.length_append, List.length_cons, List.length_nil]; omega)
      obtain ⟨t, ht⟩ := hpq
      have hmem : c ∈ Q.drop 1 := by
        rw [← ht, List.append_assoc, List.drop_append_eq_append_drop,
          show 1 - u.length = 0 from by
            cases u with
            | nil => exact absurd rfl hu
            | cons a b => simp
          , List.drop_zero]
        simp
      rcases hc with rfl | rfl
      · exact (htail _ hmem).1 rfl
      · exact (htail _ hmem).2 rfl

theorem walkX_lit (pat repl q : List Char) (hq : (q ++ [dq]) <+: pat)
    (hqne : q ≠ []) (hqdq : ¬ dq ∈ q) (x f : List Char) (hxdq : ¬ dq ∈ x)
    (hsuf : ¬ q <:+ x) :
    replaceLit pat repl (x ++ dq :: f) = x ++ replaceLit pat repl (dq :: f) := by
  induction x with
  | nil => simp
  | cons c x' ih =>
    simp only [List.mem_cons, not_or] at hxdq
    rw [List.cons_append, replaceLit_no_match]
    · rw [ih hxdq.2 (fun hs => hsuf (hs.trans (List.suffix_cons c x')))]
      rw [List.cons_append]
    · intro hpre
      rw [← List.cons_append] at hpre
      exact nqCore q (c :: x') f hqne hqdq
        (by simp only [List.mem_cons, not_or]; exact hxdq) hsuf (hq.trans hpre)

theorem walkX_strip (attr q : List Char)
    (hq : (q ++ [dq]) <+: (attr ++ dq :: '/' :: []))
    (hqne : q ≠ []) (hqdq : ¬ dq ∈ q) (x f : List Char) (hxdq : ¬ dq ∈ x)
    (hsuf : ¬ q <:+ x) :
    stripAttrSlash attr (x ++ dq :: f) = x ++ stripAttrSlash attr (dq :: f) := by
  induction x with
  | nil => simp
  | cons c x' ih =>
    simp only [List.mem_cons, not_or] at hxdq
    rw [List.cons_append, strip_no_match]
    · rw [ih hxdq.2 (fun hs => hsuf (hs.trans (List.suffix_cons c x')))]
      rw [List.cons_append]
    · intro hpre
      rw [← List.cons_append] at hpre
      exact nqCore q (c :: x') f hqne hqdq
        (by simp only [List.mem_cons, not_or]; exact hxdq) hsuf (hq.trans hpre)

theorem chunkWalk_lit (pat repl Q : List Char) (hQ : Q <+: pat)
    (htail : ∀ c ∈ Q.drop 1, c ≠ 's' ∧ c ≠ 'h') (t f : List Char)
    (hns : noSub Q t = true) (hf : headSH f) :
    replaceLit pat repl (t ++ f) = t ++ replaceLit pat repl f := by
  induction t with
  | nil => simp
  | cons c t' ih =>
    simp only [noSub, Bool.and_eq_true, Bool.not_eq_true'] at hns
    rw [List.cons_append, replaceLit_no_match]
    · rw [ih hns.2]
      rw [List.cons_append]
    · intro hpre
      rw [← List.cons_append] at hpre
      refine spanQ Q (c :: t') f ?_ htail (by simp) hf (hQ.trans hpre)
      intro hp
      rw [← List.isPrefixOf_iff_prefix] at hp
      rw [hp] at hns
      simp at hns

theorem chunkWalk_strip (attr Q : List Char)
    (hQ : Q <+: (attr ++ dq :: '/' :: []))
    (htail : ∀ c ∈ Q.drop 1, c ≠ 's' ∧ c ≠ 'h') (t f : List Char)
    (hns : noSub Q t = true) (hf : headSH f) :
    stripAttrSlash attr (t ++ f) = t ++ stripAttrSlash attr f := by
  induction t with
  | nil => simp
  | cons c t' ih =>
    simp only [noSub, Bool.and_eq_true, Bool.not_eq_true'] at hns
    rw [List.cons_append, strip_no_match]
    · rw [ih hns.2]
      rw [List.cons_append]
    · intro hpre
      rw [← List.cons_append] at hpre
      refine spanQ Q (c :: t') f ?_ htail (by simp) hf (hQ.trans hpre)
      intro hp
      rw [← List.isPrefixOf_iff_prefix] at hp
      rw [hp] at hns
      simp at hns

/-! ## Helper lemmas: no-occurrence walks and pattern shapes -/

/-- A scan over text with no occurrence of a prefix of its pattern
leaves the text unchanged (literal pass, monotone form below). -/
theorem lit_noSub_walk (pat repl : List Char) (t : List Char)
    (hns : noSub pat t = true) : replaceLit pat repl t = t := by
  induction t with
  | nil => rw [replaceLit]
  | cons c t' ih =>
    simp only [noSub, Bool.and_eq_true, Bool.not_eq_true'] at hns
    have h : ¬ pat <+: (c :: t') := by
      intro hpre
      rw [← List.isPrefixOf_iff_prefix, hns.1] at hpre
      simp at hpre
    rw [replaceLit_no_match _ _ _ _ h, ih hns.2]

/-- A generic-pass scan over text with no occurrence of its trigger
pattern leaves the text unchanged. -/
theorem strip_noSub_walk (attr : List Char) (t : List Char)
    (hns : noSub (attr ++ dq :: '/' :: []) t = true) :
    stripAttrSlash attr t = t := by
  induction t with
  | nil => rw [stripAttrSlash]
  | cons c t' ih =>
    simp only [noSub, Bool.and_eq_true, Bool.not_eq_true'] at hns
    have h : ¬ (attr ++ dq :: '/' :: []) <+: (c :: t') := by
      intro hpre
      rw [← List.isPrefixOf_iff_prefix, hns.1] at hpre
      simp at hpre
    rw [strip_no_match _ _ _ h, ih hns.2]

/-- If a pattern does not occur then no extension of it occurs. -/
theorem noSub_mono (Q P : List Char) (hQP : Q <+: P) (t : List Char)
    (h : noSub Q t = true) : noSub P t = true := by
  induction t with
  | nil =>
    simp only [noSub, Bool.not_eq_true'] at h ⊢
    cases P with
    | nil =>
      have hQnil : Q = [] := List.prefix_nil.mp hQP
      subst hQnil
      simp at h
    | cons p ps => rfl
  | cons c t' ih =>
    simp only [noSub, Bool.and_eq_true, Bool.not_eq_true'] at h ⊢
    constructor
    · cases hP : P.isPrefixOf (c :: t') with
      | false => rfl
      | true =>
        have hQ2 : Q.isPrefixOf (c :: t') = true := by
          rw [List.isPrefixOf_iff_prefix]
          exact hQP.trans (List.isPrefixOf_iff_prefix.mp hP)
        rw [hQ2] at h
        simp at h
    · exact ih h.2

/-- `takeWhile` keeps everything when the predicate never fails. -/
theorem takeWhile_all_no_dq (l : List Char) (h : ¬ dq ∈ l) :
    l.takeWhile (fun ch => ch ≠ dq) = l := by
  induction l with
  | nil => rfl
  | cons c l' ih =>
    simp only [List.mem_cons, not_or] at h
    have hc : ¬ c = dq := fun hh => h.1 hh.symm
    rw [List.takeWhile_cons_of_pos (by simpa using hc), ih h.2]

/-- At a trigger position whose greedy group never meets a closing
quote, the generic pass fails (the regex needs the quote) and the scan
advances a single character. -/
theorem strip_unterminated (a : Char) (attr2 rest : List Char)
    (hnd : ¬ dq ∈ rest) :
    stripAttrSlash (a :: attr2) (((a :: attr2) ++ dq :: '/' :: []) ++ rest) =
      a :: stripAttrSlash (a :: attr2) (attr2 ++ dq :: '/' :: rest) := by
  have hform : ((a :: attr2) ++ dq :: '/' :: []) ++ rest =
      a :: (attr2 ++ dq :: '/' :: rest) := by simp
  have hpre : ((a :: attr2) ++ dq :: '/' :: []).isPrefixOf
      (a :: (attr2 ++ dq :: '/' :: rest)) = true := by
    rw [List.isPrefixOf_iff_prefix, ← hform]
    exact List.prefix_append _ _
  have hdrop : (a :: (attr2 ++ dq :: '/' :: rest)).drop
      ((a :: attr2).length + 2) = rest := by
    rw [← hform,
      show (a :: attr2).length + 2 = ((a :: attr2) ++ dq :: '/' :: []).length from
        by simp]
    exact List.drop_left _ _
  have htw := takeWhile_all_no_dq rest hnd
  have hdrop2 : rest.drop rest.length = [] := List.drop_length rest
  rw [hform, stripAttrSlash, if_pos hpre]
  simp only [hdrop, htw, hdrop2]
  split
  next ch t2 heq =>
    rw [hdrop, htw, hdrop2] at heq
    simp at heq
  next heq => rfl

/-- The components of reference-payload safety. -/
theorem refSafe_spec (x : List Char) (h : refSafe x = true) :
    x ≠ [] ∧ ¬ dq ∈ x ∧ ¬ srcAttr <:+ x ∧ ¬ hrefAttr <:+ x := by
  simp only [refSafe, Bool.and_eq_true, Bool.not_eq_true'] at h
  obtain ⟨⟨⟨h1, h2⟩, h3⟩, h4⟩ := h
  refine ⟨?_, ?_, ?_, ?_⟩
  · intro hh
    subst hh
    simp at h1
  · intro hm
    rw [← List.elem_iff] at hm
    rw [show x.contains dq = x.elem dq from rfl, hm] at h2
    simp at h2
  · intro hs
    rw [show "src=".toList = srcAttr from rfl] at h3
    rw [List.isSuffixOf_iff_suffix.mpr hs] at h3
    simp at h3
  · intro hs
    rw [show "href=".toList = hrefAttr from rfl] at h4
    rw [List.isSuffixOf_iff_suffix.mpr hs] at h4
    simp at h4

/-- The components of chunk safety. -/
theorem chunkOk_spec (t : List Char) (h : chunkOk t = true) :
    noSub srcQ t = true ∧ noSub hrefQ t = true := by
  simp only [chunkOk, Bool.and_eq_true] at h
  exact h

/-- Unfolding safety of a decomposition one segment at a time. -/
theorem segsOk_cons (t : List Char) (r : ARef) (t2 : List Char)
    (rs : List (ARef × List Char)) (h : segsOk t ((r, t2) :: rs) = true) :
    chunkOk t = true ∧ refSafe (payload r) = true ∧ segsOk t2 rs = true := by
  simp only [segsOk, List.all_cons, Bool.and_eq_true] at h ⊢
  exact ⟨h.1, h.2.1.1, h.2.1.2, h.2.2⟩

/-- A list that is not a suffix stays not a suffix after consing a
character that is not its head. -/
theorem not_suffix_cons (q x : List Char) (c : Char) (hq : ¬ q <:+ x)
    (hh : q.head? ≠ some c) : ¬ q <:+ (c :: x) := by
  intro h
  rcases List.suffix_cons_iff.mp h with h2 | h2
  · exact hh (by rw [h2]; rfl)
  · exact hq h2

/-- A longer list is never a suffix of a shorter one. -/
theorem not_suffix_short (q x : List Char) (h : x.length < q.length) :
    ¬ q <:+ x :=
  fun hs => absurd hs.length_le (by omega)

/-- Non-membership extends through a cons of a different character. -/
theorem not_mem_cons_of (c a : Char) (x : List Char) (hne : ¬ c = a)
    (hx : ¬ c ∈ x) : ¬ c ∈ (a :: x) := by
  intro hm
  rcases List.mem_cons.mp hm with h | h
  · exact hne h
  · exact hx h

/-- A pattern starting with `s` or `h` cannot match at a quote. -/
theorem pat_step_dq (P f : List Char)
    (h : P.head? = some 's' ∨ P.head? = some 'h') : ¬ P <+: (dq :: f) := by
  intro hp
  cases P with
  | nil => simp at h
  | cons p ps =>
    obtain ⟨h1, -⟩ := List.cons_prefix_cons.mp hp
    subst h1
    simp only [List.head?_cons, Option.some.injEq] at h
    rcases h with h | h
    · exact absurd h (by decide)
    · exact absurd h (by decide)

/-- A literal pass steps over a quote character. -/
theorem lit_step_dq (pat repl : List Char)
    (h : pat.head? = some 's' ∨ pat.head? = some 'h') (f : List Char) :
    replaceLit pat repl (dq :: f) = dq :: replaceLit pat repl f :=
  replaceLit_no_match pat repl dq f (pat_step_dq pat f h)

/-- A generic pass steps over a quote character. -/
theorem strip_step_dq (attr : List Char)
    (h : (attr ++ dq :: '/' :: []).head? = some 's' ∨
      (attr ++ dq :: '/' :: []).head? = some 'h') (f : List Char) :
    stripAttrSlash attr (dq :: f) = dq :: stripAttrSlash attr f :=
  strip_no_match attr dq f (pat_step_dq _ f h)

/-- The first character following a bundler-prefixed payload is not a
slash. -/
theorem expo_head (x : List Char) (h : expoPfx.isPrefixOf x = true) :
    x.head? ≠ some '/' := by
  obtain ⟨y, hy⟩ := List.isPrefixOf_iff_prefix.mp h
  rw [← hy, show expoPfx = '_' :: "expo/".toList from by decide, List.cons_append]
  intro hh
  simp only [List.head?_cons, Option.some.injEq] at hh
  exact absurd hh (by decide)

/-! ## Helper lemmas: rendered segment shapes -/

/-- `src="` is the stem `src=` plus the opening quote. -/
theorem srcQ_split : srcQ = srcAttr ++ [dq] := by decide

/-- `href="` is the stem `href=` plus the opening quote. -/
theorem hrefQ_split : hrefQ = hrefAttr ++ [dq] := by decide

/-- The first literal pattern around its bundler prefix. -/
theorem srcLitPat_split : srcLitPat = srcQ ++ '/' :: expoPfx := by decide

/-- Its replacement around the bundler prefix. -/
theorem srcLitRepl_split : srcLitRepl = srcQ ++ expoPfx := by decide

/-- The second literal pattern around its bundler prefix. -/
theorem hrefLitPat_split : hrefLitPat = hrefQ ++ '/' :: expoPfx := by decide

/-- Its replacement around the bundler prefix. -/
theorem hrefLitRepl_split : hrefLitRepl = hrefQ ++ expoPfx := by decide

/-- A rendered `src` reference with its slash, as stem/quote/body. -/
theorem refTextA_src_form (x f : List Char) :
    refTextA (ARef.src x) ++ f = srcAttr ++ dq :: (('/' :: x) ++ dq :: f) := by
  simp [refTextA, srcQ_split]

/-- A rendered `href` reference with its slash, as stem/quote/body. -/
theorem refTextA_href_form (x f : List Char) :
    refTextA (ARef.href x) ++ f = hrefAttr ++ dq :: (('/' :: x) ++ dq :: f) := by
  simp [refTextA, hrefQ_split]

/-- A stripped `src` reference, as stem/quote/body. -/
theorem refTextB_src_form (x f : List Char) :
    refTextB (ARef.src x) ++ f = srcAttr ++ dq :: (x ++ dq :: f) := by
  simp [refTextB, srcQ_split]

/-- A stripped `href` reference, as stem/quote/body. -/
theorem refTextB_href_form (x f : List Char) :
    refTextB (ARef.href x) ++ f = hrefAttr ++ dq :: (x ++ dq :: f) := by
  simp [refTextB, hrefQ_split]

/-- Text starting with `src="` begins with `s`. -/
theorem headSH_srcQ (u f : List Char) : headSH ((srcQ ++ u) ++ f) := by
  rw [show srcQ = 's' :: "rc=\"".toList from by decide]
  exact Or.inr (Or.inl rfl)

/-- Text starting with `href="` begins with `h`. -/
theorem headSH_hrefQ (u f : List Char) : headSH ((hrefQ ++ u) ++ f) := by
  rw [show hrefQ = 'h' :: "ref=\"".toList from by decide]
  exact Or.inr (Or.inr rfl)

/-- A reference as written starts with `s` or `h`. -/
theorem headSH_refTextA (r : ARef) (f : List Char) : headSH (refTextA r ++ f) := by
  cases r with
  | src x => exact headSH_srcQ _ _
  | href x => exact headSH_hrefQ _ _

/-- A stripped reference starts with `s` or `h`. -/
theorem headSH_refTextB (r : ARef) (f : List Char) : headSH (refTextB r ++ f) := by
  cases r with
  | src x => exact headSH_srcQ _ _
  | href x => exact headSH_hrefQ _ _

/-- A reference after its literal pass starts with `s` or `h`. -/
theorem headSH_rendLit (r : ARef) (f : List Char) : headSH (rendLit r ++ f) := by
  rw [rendLit]
  split
  · exact headSH_refTextB _ _
  · exact headSH_refTextA _ _

/-- A reference between the literal passes starts with `s` or `h`. -/
theorem headSH_rendSrcLit (r : ARef) (f : List Char) :
    headSH (rendSrcLit r ++ f) := by
  cases r with
  | src x => exact headSH_rendLit (ARef.src x) f
  | href x => exact headSH_refTextA (ARef.href x) f

/-- A reference between the generic passes starts with `s` or `h`. -/
theorem headSH_rendSrcDone (r : ARef) (f : List Char) :
    headSH (rendSrcDone r ++ f) := by
  cases r with
  | src x => exact headSH_refTextB (ARef.src x) f
  | href x => exact headSH_rendLit (ARef.href x) f

/-- A reference between the generic-only passes starts with `s` or `h`. -/
theorem headSH_rendSrcGen (r : ARef) (f : List Char) :
    headSH (rendSrcGen r ++ f) := by
  cases r with
  | src x => exact headSH_refTextB (ARef.src x) f
  | href x => exact headSH_refTextA (ARef.href x) f

/-! ## Helper lemmas: a literal or generic pass across one rendered
segment -/

/-- A literal pass walks unchanged through a full stem/quote/body/quote
segment whose pieces cannot host or span a match. -/
theorem segWalk_lit (pat repl q : List Char) (hq : (q ++ [dq]) <+: pat)
    (hqne : q ≠ []) (hqdq : ¬ dq ∈ q)
    (hph : pat.head? = some 's' ∨ pat.head? = some 'h')
    (A m f : List Char) (hAdq : ¬ dq ∈ A) (hAsuf : ¬ q <:+ A)
    (hmdq : ¬ dq ∈ m) (hmsuf : ¬ q <:+ m) :
    replaceLit pat repl (A ++ dq :: (m ++ dq :: f)) =
      A ++ dq :: (m ++ dq :: replaceLit pat repl f) := by
  rw [walkX_lit pat repl q hq hqne hqdq A (m ++ dq :: f) hAdq hAsuf,
    lit_step_dq pat repl hph,
    walkX_lit pat repl q hq hqne hqdq m f hmdq hmsuf,
    lit_step_dq pat repl hph]

/-- A generic pass walks unchanged through a full stem/quote/body/quote
segment whose pieces cannot host or span a match. -/
theorem segWalk_strip (attr q : List Char)
    (hq : (q ++ [dq]) <+: (attr ++ dq :: '/' :: []))
    (hqne : q ≠ []) (hqdq : ¬ dq ∈ q)
    (hph : (attr ++ dq :: '/' :: []).head? = some 's' ∨
      (attr ++ dq :: '/' :: []).head? = some 'h')
    (A m f : List Char) (hAdq : ¬ dq ∈ A) (hAsuf : ¬ q <:+ A)
    (hmdq : ¬ dq ∈ m) (hmsuf : ¬ q <:+ m) :
    stripAttrSlash attr (A ++ dq :: (m ++ dq :: f)) =
      A ++ dq :: (m ++ dq :: stripAttrSlash attr f) := by
  rw [walkX_strip attr q hq hqne hqdq A (m ++ dq :: f) hAdq hAsuf,
    strip_step_dq attr hph,
    walkX_strip attr q hq hqne hqdq m f hmdq hmsuf,
    strip_step_dq attr hph]

/-- The first pass rewrites a bundler-prefixed `src` reference. -/
theorem segL1_src_expo (x f : List Char) (hx : refSafe x = true)
    (hpfx : expoPfx.isPrefixOf x = true) :
    replaceLit srcLitPat srcLitRepl (refTextA (ARef.src x) ++ f) =
      refTextB (ARef.src x) ++ replaceLit srcLitPat srcLitRepl f := by
  obtain ⟨hne, hdq, hssuf, hhsuf⟩ := refSafe_spec x hx
  obtain ⟨y, rfl⟩ : ∃ y, x = expoPfx ++ y := by
    obtain ⟨y, hy⟩ := List.isPrefixOf_iff_prefix.mp hpfx
    exact ⟨y, hy.symm⟩
  have hydq : ¬ dq ∈ y := fun hm => hdq (List.mem_append.mpr (Or.inr hm))
  have hysuf : ¬ srcAttr <:+ y := fun hs => hssuf (hs.trans ⟨expoPfx, rfl⟩)
  rw [show refTextA (ARef.src (expoPfx ++ y)) ++ f = srcLitPat ++ (y ++ dq :: f)
      from by simp [refTextA, srcLitPat_split],
    replaceLit_match _ _ _ (by decide),
    walkX_lit srcLitPat srcLitRepl srcAttr (by decide) (by decide) (by decide)
      y f hydq hysuf,
    lit_step_dq srcLitPat srcLitRepl (Or.inl (by decide))]
  simp [refTextB, srcLitRepl_split]

/-- The first pass leaves a non-bundler `src` reference unchanged. -/
theorem segL1_src_nonexpo (x f : List Char) (hx : refSafe x = true)
    (hpfx : expoPfx.isPrefixOf x = false) :
    replaceLit srcLitPat srcLitRepl (refTextA (ARef.src x) ++ f) =
      refTextA (ARef.src x) ++ replaceLit srcLitPat srcLitRepl f := by
  obtain ⟨hne, hdq, hssuf, hhsuf⟩ := refSafe_spec x hx
  have hnp : ¬ expoPfx <+: x := by
    intro hp
    rw [List.isPrefixOf_iff_prefix.mpr hp] at hpfx
    simp at hpfx
  have h0 : ¬ srcLitPat <+: (refTextA (ARef.src x) ++ f) := by
    rw [show refTextA (ARef.src x) ++ f = (srcQ ++ ['/']) ++ (x ++ dq :: f)
        from by simp [refTextA],
      show srcLitPat = (srcQ ++ ['/']) ++ expoPfx from by decide,
      List.prefix_append_right_inj]
    exact noDqPatMatch expoPfx x f (by decide) hnp hdq
  have hform : refTextA (ARef.src x) ++ f =
      's' :: ("rc=".toList ++ dq :: (('/' :: x) ++ dq :: f)) := by
    simp [refTextA, show srcQ = 's' :: ("rc=".toList ++ [dq]) from by decide]
  rw [hform] at h0 ⊢
  rw [replaceLit_no_match _ _ _ _ h0,
    segWalk_lit srcLitPat srcLitRepl srcAttr (by decide) (by decide) (by decide)
      (Or.inl (by decide)) ("rc=".toList) ('/' :: x) f (by decide)
      (not_suffix_short _ _ (by decide))
      (not_mem_cons_of dq '/' x (by decide) hdq)
      (not_suffix_cons _ _ _ hssuf (by decide))]
  simp [refTextA, show srcQ = 's' :: ("rc=".toList ++ [dq]) from by decide]

/-- The first pass leaves any `href` reference unchanged. -/
theorem segL1_href (x f : List Char) (hx : refSafe x = true) :
    replaceLit srcLitPat srcLitRepl (refTextA (ARef.href x) ++ f) =
      refTextA (ARef.href x) ++ replaceLit srcLitPat srcLitRepl f := by
  obtain ⟨hne, hdq, hssuf, hhsuf⟩ := refSafe_spec x hx
  rw [refTextA_href_form, refTextA_href_form,
    segWalk_lit srcLitPat srcLitRepl srcAttr (by decide) (by decide) (by decide)
      (Or.inl (by decide)) hrefAttr ('/' :: x) f (by decide) (by decide)
      (not_mem_cons_of dq '/' x (by decide) hdq)
      (not_suffix_cons _ _ _ hssuf (by decide))]

/-- The second pass rewrites a bundler-prefixed `href` reference. -/
theorem segL2_href_expo (x f : List Char) (hx : refSafe x = true)
    (hpfx : expoPfx.isPrefixOf x = true) :
    replaceLit hrefLitPat hrefLitRepl (refTextA (ARef.href x) ++ f) =
      refTextB (ARef.href x) ++ replaceLit hrefLitPat hrefLitRepl f := by
  obtain ⟨hne, hdq, hssuf, hhsuf⟩ := refSafe_spec x hx
  obtain ⟨y, rfl⟩ : ∃ y, x = expoPfx ++ y := by
    obtain ⟨y, hy⟩ := List.isPrefixOf_iff_prefix.mp hpfx
    exact ⟨y, hy.symm⟩
  have hydq : ¬ dq ∈ y := fun hm => hdq (List.mem_append.mpr (Or.inr hm))
  have hysuf : ¬ hrefAttr <:+ y := fun hs => hhsuf (hs.trans ⟨expoPfx, rfl⟩)
  rw [show refTextA (ARef.href (expoPfx ++ y)) ++ f = hrefLitPat ++ (y ++ dq :: f)
      from by simp [refTextA, hrefLitPat_split],
    replaceLit_match _ _ _ (by decide),
    walkX_lit hrefLitPat hrefLitRepl hrefAttr (by decide) (by decide) (by decide)
      y f hydq hysuf,
    lit_step_dq hrefLitPat hrefLitRepl (Or.inr (by decide))]
  simp [refTextB, hrefLitRepl_split]

/-- The second pass leaves a non-bundler `href` reference unchanged. -/
theorem segL2_href_nonexpo (x f : List Char) (hx : refSafe x = true)
    (hpfx : expoPfx.isPrefixOf x = false) :
    replaceLit hrefLitPat hrefLitRepl (refTextA (ARef.href x) ++ f) =
      refTextA (ARef.href x) ++ replaceLit hrefLitPat hrefLitRepl f := by
  obtain ⟨hne, hdq, hssuf, hhsuf⟩ := refSafe_spec x hx
  have hnp : ¬ expoPfx <+: x := by
    intro hp
    rw [List.isPrefixOf_iff_prefix.mpr hp] at hpfx
    simp at hpfx
  have h0 : ¬ hrefLitPat <+: (refTextA (ARef.href x) ++ f) := by
    rw [show refTextA (ARef.href x) ++ f = (hrefQ ++ ['/']) ++ (x ++ dq :: f)
        from by simp [refTextA],
      show hrefLitPat = (hrefQ ++ ['/']) ++ expoPfx from by decide,
      List.prefix_append_right_inj]
    exact noDqPatMatch expoPfx x f (by decide) hnp hdq
  have hform : refTextA (ARef.href x) ++ f =
      'h' :: ("ref=".toList ++ dq :: (('/' :: x) ++ dq :: f)) := by
    simp [refTextA, show hrefQ = 'h' :: ("ref=".toList ++ [dq]) from by decide]
  rw [hform] at h0 ⊢
  rw [replaceLit_no_match _ _ _ _ h0,
    segWalk_lit hrefLitPat hrefLitRepl hrefAttr (by decide) (by decide) (by decide)
      (Or.inr (by decide)) ("ref=".toList) ('/' :: x) f (by decide)
      (not_suffix_short _ _ (by decide))
      (not_mem_cons_of dq '/' x (by decide) hdq)
      (not_suffix_cons _ _ _ hhsuf (by decide))]
  simp [refTextA, show hrefQ = 'h' :: ("ref=".toList ++ [dq]) from by decide]

/-- The second pass leaves an unstripped `src` reference unchanged. -/
theorem segL2_src_A (x f : List Char) (hx : refSafe x = true) :
    replaceLit hrefLitPat hrefLitRepl (refTextA (ARef.src x) ++ f) =
      refTextA (ARef.src x) ++ replaceLit hrefLitPat hrefLitRepl f := by
  obtain ⟨hne, hdq, hssuf, hhsuf⟩ := refSafe_spec x hx
  rw [refTextA_src_form, refTextA_src_form,
    segWalk_lit hrefLitPat hrefLitRepl hrefAttr (by decide) (by decide) (by decide)
      (Or.inr (by decide)) srcAttr ('/' :: x) f (by decide)
      (not_suffix_short _ _ (by decide))
      (not_mem_cons_of dq '/' x (by decide) hdq)
      (not_suffix_cons _ _ _ hhsuf (by decide))]

/-- The second pass leaves a stripped `src` reference unchanged. -/
theorem segL2_src_B (x f : List Char) (hx : refSafe x = true) :
    replaceLit hrefLitPat hrefLitRepl (refTextB (ARef.src x) ++ f) =
      refTextB (ARef.src x) ++ replaceLit hrefLitPat hrefLitRepl f := by
  obtain ⟨hne, hdq, hssuf, hhsuf⟩ := refSafe_spec x hx
  rw [refTextB_src_form, refTextB_src_form,
    segWalk_lit hrefLitPat hrefLitRepl hrefAttr (by decide) (by decide) (by decide)
      (Or.inr (by decide)) srcAttr x f (by decide)
      (not_suffix_short _ _ (by decide)) hdq hhsuf]

/-- The third pass strips the slash of any slashed `src` reference. -/
theorem segG3_src (x f : List Char) (hx : refSafe x = true) :
    stripAttrSlash srcAttr (refTextA (ARef.src x) ++ f) =
      refTextB (ARef.src x) ++ stripAttrSlash srcAttr f := by
  obtain ⟨hne, hdq, -, -⟩ := refSafe_spec x hx
  rw [show refTextA (ARef.src x) ++ f =
      (srcAttr ++ dq :: '/' :: []) ++ (x ++ dq :: f) from by
      simp [refTextA, srcQ_split],
    strip_match srcAttr x f (by decide) hne hdq, refTextB_src_form]

/-- The third pass leaves a stripped `src` reference unchanged when its
payload does not itself begin with a slash. -/
theorem segG3_src_B (x f : List Char) (hx : refSafe x = true)
    (hx0 : x.head? ≠ some '/') :
    stripAttrSlash srcAttr (refTextB (ARef.src x) ++ f) =
      refTextB (ARef.src x) ++ stripAttrSlash srcAttr f := by
  obtain ⟨hne, hdq, hssuf, hhsuf⟩ := refSafe_spec x hx
  obtain ⟨x0, x', rfl⟩ : ∃ x0 x', x = x0 :: x' := by
    cases x with
    | nil => exact absurd rfl hne
    | cons a b => exact ⟨a, b, rfl⟩
  have h0 : ¬ (srcAttr ++ dq :: '/' :: []) <+:
      (refTextB (ARef.src (x0 :: x')) ++ f) := by
    rw [show refTextB (ARef.src (x0 :: x')) ++ f =
        (srcAttr ++ [dq]) ++ (x0 :: (x' ++ dq :: f)) from by
        simp [refTextB, srcQ_split],
      show (srcAttr ++ dq :: '/' :: []) = (srcAttr ++ [dq]) ++ ['/'] from by simp,
      List.prefix_append_right_inj]
    intro hp
    obtain ⟨h1, -⟩ := List.cons_prefix_cons.mp hp
    exact hx0 (by rw [← h1]; rfl)
  have hform : refTextB (ARef.src (x0 :: x')) ++ f =
      's' :: ("rc=".toList ++ dq :: ((x0 :: x') ++ dq :: f)) := by
    simp [refTextB, show srcQ = 's' :: ("rc=".toList ++ [dq]) from by decide]
  rw [hform] at h0 ⊢
  rw [strip_no_match _ _ _ h0,
    segWalk_strip srcAttr srcAttr (by decide) (by decide) (by decide)
      (Or.inl (by decide)) ("rc=".toList) (x0 :: x') f (by decide)
      (not_suffix_short _ _ (by decide)) hdq hssuf]
  simp [refTextB, show srcQ = 's' :: ("rc=".toList ++ [dq]) from by decide]

/-- The third pass leaves a slashed `href` reference unchanged. -/
theorem segG3_href_A (x f : List Char) (hx : refSafe x = true) :
    stripAttrSlash srcAttr (refTextA (ARef.href x) ++ f) =
      refTextA (ARef.href x) ++ stripAttrSlash srcAttr f := by
  obtain ⟨hne, hdq, hssuf, hhsuf⟩ := refSafe_spec x hx
  rw [refTextA_href_form, refTextA_href_form,
    segWalk_strip srcAttr srcAttr (by decide) (by decide) (by decide)
      (Or.inl (by decide)) hrefAttr ('/' :: x) f (by decide) (by decide)
      (not_mem_cons_of dq '/' x (by decide) hdq)
      (not_suffix_cons _ _ _ hssuf (by decide))]

/-- The third pass leaves a stripped `href` reference unchanged. -/
theorem segG3_href_B (x f : List Char) (hx : refSafe x = true) :
    stripAttrSlash srcAttr (refTextB (ARef.href x) ++ f) =
      refTextB (ARef.href x) ++ stripAttrSlash srcAttr f := by
  obtain ⟨hne, hdq, hssuf, hhsuf⟩ := refSafe_spec x hx
  rw [refTextB_href_form, refTextB_href_form,
    segWalk_strip srcAttr srcAttr (by decide) (by decide) (by decide)
      (Or.inl (by decide)) hrefAttr x f (by decide) (by decide) hdq hssuf]

/-- The fourth pass strips the slash of any slashed `href` reference. -/
theorem segG4_href (x f : List Char) (hx : refSafe x = true) :
    stripAttrSlash hrefAttr (refTextA (ARef.href x) ++ f) =
      refTextB (ARef.href x) ++ stripAttrSlash hrefAttr f := by
  obtain ⟨hne, hdq, -, -⟩ := refSafe_spec x hx
  rw [show refTextA (ARef.href x) ++ f =
      (hrefAttr ++ dq :: '/' :: []) ++ (x ++ dq :: f) from by
      simp [refTextA, hrefQ_split],
    strip_match hrefAttr x f (by decide) hne hdq, refTextB_href_form]

/-- The fourth pass leaves a stripped `href` reference unchanged when
its payload does not itself begin with a slash. -/
theorem segG4_href_B (x f : List Char) (hx : refSafe x = true)
    (hx0 : x.head? ≠ some '/') :
    stripAttrSlash hrefAttr (refTextB (ARef.href x) ++ f) =
      refTextB (ARef.href x) ++ stripAttrSlash hrefAttr f := by
  obtain ⟨hne, hdq, hssuf, hhsuf⟩ := refSafe_spec x hx
  obtain ⟨x0, x', rfl⟩ : ∃ x0 x', x = x0 :: x' := by
    cases x with
    | nil => exact absurd rfl hne
    | cons a b => exact ⟨a, b, rfl⟩
  have h0 : ¬ (hrefAttr ++ dq :: '/' :: []) <+:
      (refTextB (ARef.href (x0 :: x')) ++ f) := by
    rw [show refTextB (ARef.href (x0 :: x')) ++ f =
        (hrefAttr ++ [dq]) ++ (x0 :: (x' ++ dq :: f)) from by
        simp [refTextB, hrefQ_split],
      show (hrefAttr ++ dq :: '/' :: []) = (hrefAttr ++ [dq]) ++ ['/'] from by simp,
      List.prefix_append_right_inj]
    intro hp
    obtain ⟨h1, -⟩ := List.cons_prefix_cons.mp hp
    exact hx0 (by rw [← h1]; rfl)
  have hform : refTextB (ARef.href (x0 :: x')) ++ f =
      'h' :: ("ref=".toList ++ dq :: ((x0 :: x') ++ dq :: f)) := by
    simp [refTextB, show hrefQ = 'h' :: ("ref=".toList ++ [dq]) from by decide]
  rw [hform] at h0 ⊢
  rw [strip_no_match _ _ _ h0,
    segWalk_strip hrefAttr hrefAttr (by decide) (by decide) (by decide)
      (Or.inr (by decide)) ("ref=".toList) (x0 :: x') f (by decide)
      (not_suffix_short _ _ (by decide)) hdq hhsuf]
  simp [refTextB, show hrefQ = 'h' :: ("ref=".toList ++ [dq]) from by decide]

/-- The fourth pass leaves a stripped `src` reference unchanged. -/
theorem segG4_src_B (x f : List Char) (hx : refSafe x = true) :
    stripAttrSlash hrefAttr (refTextB (ARef.src x) ++ f) =
      refTextB (ARef.src x) ++ stripAttrSlash hrefAttr f := by
  obtain ⟨hne, hdq, hssuf, hhsuf⟩ := refSafe_spec x hx
  rw [refTextB_src_form, refTextB_src_form,
    segWalk_strip hrefAttr hrefAttr (by decide) (by decide) (by decide)
      (Or.inr (by decide)) srcAttr x f (by decide)
      (not_suffix_short _ _ (by decide)) hdq hhsuf]

/-- The first pass walks through a safe literal chunk. -/
theorem chunkL1 (t f : List Char) (ht : noSub srcQ t = true) (hf : headSH f) :
    replaceLit srcLitPat srcLitRepl (t ++ f) =
      t ++ replaceLit srcLitPat srcLitRepl f :=
  chunkWalk_lit srcLitPat srcLitRepl srcQ (by decide) (by decide) t f ht hf

/-- The second pass walks through a safe literal chunk. -/
theorem chunkL2 (t f : List Char) (ht : noSub hrefQ t = true) (hf : headSH f) :
    replaceLit hrefLitPat hrefLitRepl (t ++ f) =
      t ++ replaceLit hrefLitPat hrefLitRepl f :=
  chunkWalk_lit hrefLitPat hrefLitRepl hrefQ (by decide) (by decide) t f ht hf

/-- The third pass walks through a safe literal chunk. -/
theorem chunkG3 (t f : List Char) (ht : noSub srcQ t = true) (hf : headSH f) :
    stripAttrSlash srcAttr (t ++ f) = t ++ stripAttrSlash srcAttr f :=
  chunkWalk_strip srcAttr srcQ (by decide) (by decide) t f ht hf

/-- The fourth pass walks through a safe literal chunk. -/
theorem chunkG4 (t f : List Char) (ht : noSub hrefQ t = true) (hf : headSH f) :
    stripAttrSlash hrefAttr (t ++ f) = t ++ stripAttrSlash hrefAttr f :=
  chunkWalk_strip hrefAttr hrefQ (by decide) (by decide) t f ht hf

/-! ## The four passes on a safely decomposed entry file -/

/-- Pass 1 rewrites exactly the bundler-prefixed `src` references. -/
theorem stage1 (rs : List (ARef × List Char)) : ∀ t : List Char,
    segsOk t rs = true →
    replaceLit srcLitPat srcLitRepl (catWith refTextA t rs) =
      catWith rendSrcLit t rs := by
  induction rs with
  | nil =>
    intro t h
    simp only [segsOk, List.all_nil, Bool.and_true] at h
    simp only [catWith]
    exact lit_noSub_walk _ _ _
      (noSub_mono srcQ srcLitPat (by decide) t (chunkOk_spec t h).1)
  | cons p rs ih =>
    intro t h
    obtain ⟨r, t2⟩ := p
    obtain ⟨h1, h2, h3⟩ := segsOk_cons _ _ _ _ h
    simp only [catWith]
    rw [chunkL1 t _ (chunkOk_spec t h1).1 (headSH_refTextA r _)]
    cases r with
    | src x =>
      cases hp : expoPfx.isPrefixOf x with
      | true =>
        rw [segL1_src_expo x _ h2 hp, ih t2 h3,
          show rendSrcLit (ARef.src x) = refTextB (ARef.src x) from by
            rw [rendSrcLit, rendLit, payload, if_pos hp]]
      | false =>
        rw [segL1_src_nonexpo x _ h2 hp, ih t2 h3,
          show rendSrcLit (ARef.src x) = refTextA (ARef.src x) from by
            rw [rendSrcLit, rendLit, payload, if_neg (by simp [hp])]]
    | href x =>
      rw [segL1_href x _ h2, ih t2 h3,
        show rendSrcLit (ARef.href x) = refTextA (ARef.href x) from rfl]

/-- Pass 2 rewrites exactly the bundler-prefixed `href` references. -/
theorem stage2 (rs : List (ARef × List Char)) : ∀ t : List Char,
    segsOk t rs = true →
    replaceLit hrefLitPat hrefLitRepl (catWith rendSrcLit t rs) =
      catWith rendLit t rs := by
  induction rs with
  | nil =>
    intro t h
    simp only [segsOk, List.all_nil, Bool.and_true] at h
    simp only [catWith]
    exact lit_noSub_walk _ _ _
      (noSub_mono hrefQ hrefLitPat (by decide) t (chunkOk_spec t h).2)
  | cons p rs ih =>
    intro t h
    obtain ⟨r, t2⟩ := p
    obtain ⟨h1, h2, h3⟩ := segsOk_cons _ _ _ _ h
    simp only [catWith]
    rw [chunkL2 t _ (chunkOk_spec t h1).2 (headSH_rendSrcLit r _)]
    cases r with
    | src x =>
      cases hp : expoPfx.isPrefixOf x with
      | true =>
        rw [show rendSrcLit (ARef.src x) = refTextB (ARef.src x) from by
            rw [rendSrcLit, rendLit, payload, if_pos hp],
          segL2_src_B x _ h2, ih t2 h3,
          show rendLit (ARef.src x) = refTextB (ARef.src x) from by
            rw [rendLit, payload, if_pos hp]]
      | false =>
        rw [show rendSrcLit (ARef.src x) = refTextA (ARef.src x) from by
            rw [rendSrcLit, rendLit, payload, if_neg (by simp [hp])],
          segL2_src_A x _ h2, ih t2 h3,
          show rendLit (ARef.src x) = refTextA (ARef.src x) from by
            rw [rendLit, payload, if_neg (by simp [hp])]]
    | href x =>
      rw [show rendSrcLit (ARef.href x) = refTextA (ARef.href x) from rfl]
      cases hp : expoPfx.isPrefixOf x with
      | true =>
        rw [segL2_href_expo x _ h2 hp, ih t2 h3,
          show rendLit (ARef.href x) = refTextB (ARef.href x) from by
            rw [rendLit, payload, if_pos hp]]
      | false =>
        rw [segL2_href_nonexpo x _ h2 hp, ih t2 h3,
          show rendLit (ARef.href x) = refTextA (ARef.href x) from by
            rw [rendLit, payload, if_neg (by simp [hp])]]

/-- Pass 3 strips exactly the still-slashed `src` references. -/
theorem stage3 (rs : List (ARef × List Char)) : ∀ t : List Char,
    segsOk t rs = true →
    stripAttrSlash srcAttr (catWith rendLit t rs) =
      catWith rendSrcDone t rs := by
  induction rs with
  | nil =>
    intro t h
    simp only [segsOk, List.all_nil, Bool.and_true] at h
    simp only [catWith]
    exact strip_noSub_walk _ _
      (noSub_mono srcQ (srcAttr ++ dq :: '/' :: []) (by decide) t
        (chunkOk_spec t h).1)
  | cons p rs ih =>
    intro t h
    obtain ⟨r, t2⟩ := p
    obtain ⟨h1, h2, h3⟩ := segsOk_cons _ _ _ _ h
    simp only [catWith]
    rw [chunkG3 t _ (chunkOk_spec t h1).1 (headSH_rendLit r _)]
    cases r with
    | src x =>
      cases hp : expoPfx.isPrefixOf x with
      | true =>
        rw [show rendLit (ARef.src x) = refTextB (ARef.src x) from by
            rw [rendLit, payload, if_pos hp],
          segG3_src_B x _ h2 (expo_head x hp), ih t2 h3,
          show rendSrcDone (ARef.src x) = refTextB (ARef.src x) from rfl]
      | false =>
        rw [show rendLit (ARef.src x) = refTextA (ARef.src x) from by
            rw [rendLit, payload, if_neg (by simp [hp])],
          segG3_src x _ h2, ih t2 h3,
          show rendSrcDone (ARef.src x) = refTextB (ARef.src x) from rfl]
    | href x =>
      cases hp : expoPfx.isPrefixOf x with
      | true =>
        rw [show rendLit (ARef.href x) = refTextB (ARef.href x) from by
            rw [rendLit, payload, if_pos hp],
          segG3_href_B x _ h2, ih t2 h3,
          show rendSrcDone (ARef.href x) = refTextB (ARef.href x) from by
            rw [rendSrcDone, rendLit, payload, if_pos hp]]
      | false =>
        rw [show rendLit (ARef.href x) = refTextA (ARef.href x) from by
            rw [rendLit, payload, if_neg (by simp [hp])],
          segG3_href_A x _ h2, ih t2 h3,
          show rendSrcDone (ARef.href x) = refTextA (ARef.href x) from by
            rw [rendSrcDone, rendLit, payload, if_neg (by simp [hp])]]

/-- Pass 4 strips exactly the still-slashed `href` references. -/
theorem stage4 (rs : List (ARef × List Char)) : ∀ t : List Char,
    segsOk t rs = true →
    stripAttrSlash hrefAttr (catWith rendSrcDone t rs) =
      catWith refTextB t rs := by
  induction rs with
  | nil =>
    intro t h
    simp only [segsOk, List.all_nil, Bool.and_true] at h
    simp only [catWith]
    exact strip_noSub_walk _ _
      (noSub_mono hrefQ (hrefAttr ++ dq :: '/' :: []) (by decide) t
        (chunkOk_spec t h).2)
  | cons p rs ih =>
    intro t h
    obtain ⟨r, t2⟩ := p
    obtain ⟨h1, h2, h3⟩ := segsOk_cons _ _ _ _ h
    simp only [catWith]
    rw [chunkG4 t _ (chunkOk_spec t h1).2 (headSH_rendSrcDone r _)]
    cases r with
    | src x =>
      rw [show rendSrcDone (ARef.src x) = refTextB (ARef.src x) from rfl,
        segG4_src_B x _ h2, ih t2 h3]
    | href x =>
      cases hp : expoPfx.isPrefixOf x with
      | true =>
        rw [show rendSrcDone (ARef.href x) = refTextB (ARef.href x) from by
            rw [rendSrcDone, rendLit, payload, if_pos hp],
          segG4_href_B x _ h2 (expo_head x hp), ih t2 h3]
      | false =>
        rw [show rendSrcDone (ARef.href x) = refTextA (ARef.href x) from by
            rw [rendSrcDone, rendLit, payload, if_neg (by simp [hp])],
          segG4_href x _ h2, ih t2 h3]

/-- In the generic-only pipeline, the first generic pass strips every
`src` reference. -/
theorem stage3_generic (rs : List (ARef × List Char)) : ∀ t : List Char,
    segsOk t rs = true →
    stripAttrSlash srcAttr (catWith refTextA t rs) =
      catWith rendSrcGen t rs := by
  induction rs with
  | nil =>
    intro t h
    simp only [segsOk, List.all_nil, Bool.and_true] at h
    simp only [catWith]
    exact strip_noSub_walk _ _
      (noSub_mono srcQ (srcAttr ++ dq :: '/' :: []) (by decide) t
        (chunkOk_spec t h).1)
  | cons p rs ih =>
    intro t h
    obtain ⟨r, t2⟩ := p
    obtain ⟨h1, h2, h3⟩ := segsOk_cons _ _ _ _ h
    simp only [catWith]
    rw [chunkG3 t _ (chunkOk_spec t h1).1 (headSH_refTextA r _)]
    cases r with
    | src x =>
      rw [segG3_src x _ h2, ih t2 h3,
        show rendSrcGen (ARef.src x) = refTextB (ARef.src x) from rfl]
    | href x =>
      rw [segG3_href_A x _ h2, ih t2 h3,
        show rendSrcGen (ARef.href x) = refTextA (ARef.href x) from rfl]

/-- In the generic-only pipeline, the second generic pass strips every
`href` reference. -/
theorem stage4_generic (rs : List (ARef × List Char)) : ∀ t : List Char,
    segsOk t rs = true →
    stripAttrSlash hrefAttr (catWith rendSrcGen t rs) =
      catWith refTextB t rs := by
  induction rs with
  | nil =>
    intro t h
    simp only [segsOk, List.all_nil, Bool.and_true] at h
    simp only [catWith]
    exact strip_noSub_walk _ _
      (noSub_mono hrefQ (hrefAttr ++ dq :: '/' :: []) (by decide) t
        (chunkOk_spec t h).2)
  | cons p rs ih =>
    intro t h
    obtain ⟨r, t2⟩ := p
    obtain ⟨h1, h2, h3⟩ := segsOk_cons _ _ _ _ h
    simp only [catWith]
    rw [chunkG4 t _ (chunkOk_spec t h1).2 (headSH_rendSrcGen r _)]
    cases r with
    | src x =>
      rw [show rendSrcGen (ARef.src x) = refTextB (ARef.src x) from rfl,
        segG4_src_B x _ h2, ih t2 h3]
    | href x =>
      rw [show rendSrcGen (ARef.href x) = refTextA (ARef.href x) from rfl,
        segG4_href x _ h2, ih t2 h3]

/-! ## Claims about metadata, preconditions and the optional steps -/

/-- C6: with the version field absent, both descriptors carry version
`1.0.0`; with a non-empty version present, both carry exactly that
value; and each descriptor file is the fixed template text around that
version. -/
theorem claim_C6 (pj : PackageJson) :
    (pj.version = none →
      (TIZEN_CONFIG pj).version = "1.0.0" ∧ (WEBOS_CONFIG pj).version = "1.0.0") ∧
    (∀ v, pj.version = some v → v ≠ "" →
      (TIZEN_CONFIG pj).version = v ∧ (WEBOS_CONFIG pj).version = v) ∧
    configXmlContent (TIZEN_CONFIG pj) =
      tizenXmlPre ++ ((TIZEN_CONFIG pj).version ++ tizenXmlPost) ∧
    appInfoContent (WEBOS_CONFIG pj) =
      webosJsonPre ++ (jsonStr (WEBOS_CONFIG pj).version ++ webosJsonPost) := by
  refine ⟨?_, ?_, configXml_version_split pj, appInfo_version_split pj⟩
  · intro h
    simp [TIZEN_CONFIG, WEBOS_CONFIG, jsOrString, h]
  · intro v hv hne
    simp [TIZEN_CONFIG, WEBOS_CONFIG, jsOrString, hv, hne]

/-- Witness for C6 at version `2.3.1` and at an absent version. -/
theorem claim_C6_witness :
    (TIZEN_CONFIG ⟨some "2.3.1"⟩).version = "2.3.1" ∧
    (WEBOS_CONFIG ⟨some "2.3.1"⟩).version = "2.3.1" ∧
    (TIZEN_CONFIG ⟨none⟩).version = "1.0.0" ∧
    configXmlContent (TIZEN_CONFIG ⟨some "2.3.1"⟩) =
      tizenXmlPre ++ ("2.3.1" ++ tizenXmlPost) := by
  have hs := (claim_C6 ⟨some "2.3.1"⟩).2.1 "2.3.1" rfl (by decide)
  have hn := (claim_C6 ⟨none⟩).1 rfl
  have hc := (claim_C6 ⟨some "2.3.1"⟩).2.2.1
  refine ⟨hs.1, hs.2, hn.1, ?_⟩
  rw [hc, hs.1]

/-- C10: a present-but-falsy version — the empty string — also triggers
the `1.0.0` fallback in both descriptors. -/
theorem claim_C10 (pj : PackageJson) (h : pj.version = some "") :
    (TIZEN_CONFIG pj).version = "1.0.0" ∧ (WEBOS_CONFIG pj).version = "1.0.0" ∧
    configXmlContent (TIZEN_CONFIG pj) = tizenXmlPre ++ ("1.0.0" ++ tizenXmlPost) ∧
    appInfoContent (WEBOS_CONFIG pj) =
      webosJsonPre ++ (jsonStr "1.0.0" ++ webosJsonPost) := by
  have h1 : (TIZEN_CONFIG pj).version = "1.0.0" := by simp [TIZEN_CONFIG, jsOrString, h]
  have h2 : (WEBOS_CONFIG pj).version = "1.0.0" := by simp [WEBOS_CONFIG, jsOrString, h]
  refine ⟨h1, h2, ?_, ?_⟩
  · rw [configXml_version_split pj, h1]
  · rw [appInfo_version_split pj, h2]

/-- Witness for C10 at `version = ""`. -/
theorem claim_C10_witness :
    (TIZEN_CONFIG ⟨some ""⟩).version = "1.0.0" ∧
    (WEBOS_CONFIG ⟨some ""⟩).version = "1.0.0" ∧
    configXmlContent (TIZEN_CONFIG ⟨some ""⟩) =
      tizenXmlPre ++ ("1.0.0" ++ tizenXmlPost) ∧
    appInfoContent (WEBOS_CONFIG ⟨some ""⟩) =
      webosJsonPre ++ (jsonStr "1.0.0" ++ webosJsonPost) :=
  claim_C10 ⟨some ""⟩ rfl

/-- C2: with the dist directory absent, both exporters end with a
non-zero exit code and leave the filesystem — in particular any
pre-existing staging directory — exactly as it was. -/
theorem claim_C2 (env : ExportEnv) (fs : FNode)
    (h : lookupNode fs distPath = none) :
    (Tizen.main env fs).1 ≠ 0 ∧ (Tizen.main env fs).2.1 = fs ∧
    (WebOS.main env fs).1 ≠ 0 ∧ (WebOS.main env fs).2.1 = fs := by
  obtain ⟨opj, cli, pkg, fuel⟩ := env
  cases opj with
  | none => simp [Tizen.main, WebOS.main]
  | some pj =>
    simp [Tizen.main, WebOS.main, Tizen.staged, WebOS.staged, Tizen.staged3,
      WebOS.staged3, stepThen, Tizen.copyDistFiles, WebOS.copyDistFiles,
      existsNode, h]

/-- Witness for C2: a filesystem with a stale staging directory and no
dist directory. -/
theorem claim_C2_witness :
    lookupNode (FNode.dir [("tizen-build", FNode.dir [("stale", FNode.file "old")])])
        distPath = none ∧
    (Tizen.main ⟨some ⟨some "1.0.0"⟩, false, false, 9⟩
        (FNode.dir [("tizen-build", FNode.dir [("stale", FNode.file "old")])])).1 ≠ 0 ∧
    (Tizen.main ⟨some ⟨some "1.0.0"⟩, false, false, 9⟩
        (FNode.dir [("tizen-build", FNode.dir [("stale", FNode.file "old")])])).2.1 =
      FNode.dir [("tizen-build", FNode.dir [("stale", FNode.file "old")])] := by
  have hl : lookupNode (FNode.dir [("tizen-build", FNode.dir [("stale", FNode.file "old")])])
      distPath = none := by decide
  have h := claim_C2 ⟨some ⟨some "1.0.0"⟩, false, false, 9⟩
    (FNode.dir [("tizen-build", FNode.dir [("stale", FNode.file "old")])]) hl
  exact ⟨hl, h.1, h.2.1⟩

/-- C9: with `package.json` unreadable or unparseable, both exporters
exit with code 1 without touching the filesystem. -/
theorem claim_C9 (env : ExportEnv) (fs : FNode) (h : env.packageJson = none) :
    Tizen.main env fs = (1, fs, ["Error reading package.json:"]) ∧
    WebOS.main env fs = (1, fs, ["Error reading package.json:"]) := by
  obtain ⟨opj, cli, pkg, fuel⟩ := env
  cases h
  simp [Tizen.main, WebOS.main]

/-- Witness for C9. -/
theorem claim_C9_witness :
    Tizen.main ⟨none, true, true, 9⟩ (FNode.dir [("dist", FNode.dir [])]) =
      (1, FNode.dir [("dist", FNode.dir [])], ["Error reading package.json:"]) ∧
    WebOS.main ⟨none, true, true, 9⟩ (FNode.dir [("dist", FNode.dir [])]) =
      (1, FNode.dir [("dist", FNode.dir [])], ["Error reading package.json:"]) :=
  claim_C9 ⟨none, true, true, 9⟩ (FNode.dir [("dist", FNode.dir [])]) rfl

/-- C7: when the packaging CLI is absent, or present but failing, an
exporter whose mandatory steps succeeded still exits 0, the packaging
step leaves the filesystem produced by the mandatory steps untouched,
and every manual-recovery warning line is printed. -/
theorem claim_C7 (env : ExportEnv) (pj : PackageJson) (fs0 fsT fsW : FNode)
    (lT lW : List String)
    (hpj : env.packageJson = some pj)
    (hcli : env.cliFound = false ∨ env.packageCmdSucceeds = false)
    (hT : Tizen.staged env.fuel pj fs0 = Except.ok (fsT, lT))
    (hW : WebOS.staged env.fuel pj fs0 = Except.ok (fsW, lW)) :
    (Tizen.main env fs0).1 = 0 ∧ (Tizen.main env fs0).2.1 = fsT ∧
    (∀ w ∈ Tizen.wgtWarnLines, w ∈ (Tizen.main env fs0).2.2) ∧
    (WebOS.main env fs0).1 = 0 ∧ (WebOS.main env fs0).2.1 = fsW ∧
    (∀ w ∈ WebOS.ipkWarnLines, w ∈ (WebOS.main env fs0).2.2) := by
  obtain ⟨opj, cli, pkg, fuel⟩ := env
  cases hpj
  have hwgt : Tizen.createWGT ⟨some pj, cli, pkg, fuel⟩ fsT = (fsT, Tizen.wgtWarnLines) ∨
      Tizen.createWGT ⟨some pj, cli, pkg, fuel⟩ fsT =
        (fsT, "📦 Creating WGT package..." :: Tizen.wgtWarnLines) := by
    rcases hcli with h | h <;> cases cli <;> cases pkg <;>
      simp_all [Tizen.createWGT]
  have hipk : WebOS.createIPK ⟨some pj, cli, pkg, fuel⟩ fsW = (fsW, WebOS.ipkWarnLines) ∨
      WebOS.createIPK ⟨some pj, cli, pkg, fuel⟩ fsW =
        (fsW, "📦 Creating IPK package..." :: WebOS.ipkWarnLines) := by
    rcases hcli with h | h <;> cases cli <;> cases pkg <;>
      simp_all [WebOS.createIPK]
  constructor
  · rcases hwgt with h | h <;>
      simp [Tizen.main, hT, h, Tizen.displayInstructions]
  constructor
  · rcases hwgt with h | h <;>
      simp [Tizen.main, hT, h, Tizen.displayInstructions]
  constructor
  · intro w hw
    rcases hwgt with h | h <;>
      simp [Tizen.main, hT, h, Tizen.displayInstructions, List.mem_append] <;>
      tauto
  constructor
  · rcases hipk with h | h <;>
      simp [WebOS.main, hW, h, WebOS.displayInstructions]
  constructor
  · rcases hipk with h | h <;>
      simp [WebOS.main, hW, h, WebOS.displayInstructions]
  · intro w hw
    rcases hipk with h | h <;>
      simp [WebOS.main, hW, h, WebOS.displayInstructions, List.mem_append] <;>
      tauto

/-- Witness for C7: an empty dist, no CLI on the path. -/
theorem claim_C7_witness :
    (Tizen.main ⟨some ⟨some "1.0.0"⟩, false, false, 1⟩
        (FNode.dir [("dist", FNode.dir [])])).1 = 0 ∧
    (Tizen.main ⟨some ⟨some "1.0.0"⟩, false, false, 1⟩
        (FNode.dir [("dist", FNode.dir [])])).2.1 =
      FNode.dir [("dist", FNode.dir []),
        ("tizen-build", FNode.dir [("config.xml",
          FNode.file (configXmlContent (TIZEN_CONFIG ⟨some "1.0.0"⟩)))])] ∧
    "⚠ tizen CLI not found. To create a WGT package:" ∈
      (Tizen.main ⟨some ⟨some "1.0.0"⟩, false, false, 1⟩
        (FNode.dir [("dist", FNode.dir [])])).2.2 ∧
    (WebOS.main ⟨some ⟨some "1.0.0"⟩, false, false, 1⟩
        (FNode.dir [("dist", FNode.dir [])])).1 = 0 ∧
    "⚠ ares-package not found. To create an IPK package:" ∈
      (WebOS.main ⟨some ⟨some "1.0.0"⟩, false, false, 1⟩
        (FNode.dir [("dist", FNode.dir [])])).2.2 := by
  have h := claim_C7 ⟨some ⟨some "1.0.0"⟩, false, false, 1⟩ ⟨some "1.0.0"⟩
    (FNode.dir [("dist", FNode.dir [])])
    (FNode.dir [("dist", FNode.dir []),
      ("tizen-build", FNode.dir [("config.xml",
        FNode.file (configXmlContent (TIZEN_CONFIG ⟨some "1.0.0"⟩)))])])
    (FNode.dir [("dist", FNode.dir []),
      ("webos-build", FNode.dir [("appinfo.json",
        FNode.file (appInfoContent (WEBOS_CONFIG ⟨some "1.0.0"⟩)))])])
    ["✓ Copied dist files to Tizen build directory",
     "⚠ index.html not found, skipping path fixes", "✓ Created config.xml",
     "⚠ No 512x512 icon found. You need to add:",
     "  - assets/images/icon-512.png (512x512 PNG)"]
    ["✓ Copied dist files to webOS build directory",
     "⚠ index.html not found, skipping path fixes", "✓ Created appinfo.json",
     "⚠ No 80x80 icon found. You need to add:",
     "  - assets/images/icon-80.png (80x80 PNG)",
     "⚠ No 130x130 icon found. You need to add:",
     "  - assets/images/icon-130.png (130x130 PNG)",
     "⚠ No splash image found. You may want to add:",
     "  - assets/images/splash-1920x1080.png (1920x1080 PNG)"]
    rfl (Or.inl rfl) rfl rfl
  exact ⟨h.1, h.2.1, h.2.2.1 _ (by decide), h.2.2.2.1, h.2.2.2.2.2 _ (by decide)⟩

/-- C3: the recursive copy step, from the dist directory into a fresh
staging directory (`dest` is either exporter's staging path, or any path
disjoint from `dist`), reproduces the source tree exactly: the staging
subtree afterwards is precisely the dist subtree — every relative path
present with identical contents, nothing extra — and the source is left
intact. -/
theorem claim_C3 (fuel : Nat) (fs T : FNode) (dest : List String)
    (hsrc : lookupNode fs distPath = some T)
    (hdir : isDirNode T = true)
    (hwf : wfNode T = true)
    (hfuel : nodeSize T ≤ fuel)
    (hdiv : Diverge distPath dest)
    (hdest : lookupNode fs dest = some (FNode.dir []))
    (hfits : pathFits fs dest = true) :
    copyDirectory fuel fs distPath dest = Except.ok (graft fs dest T) ∧
    lookupNode (graft fs dest T) dest = some T ∧
    lookupNode (graft fs dest T) distPath = some T := by
  have hmk : mkdirp fs dest = some (graft fs dest (FNode.dir [])) := by
    rw [mkdirp_noop _ _ _ hdest, graft_self_eq _ _ _ hdest]
  refine ⟨copyDirectory_ok fuel fs distPath dest T hsrc hdir hwf hfuel hdiv hmk
    hfits, lookup_graft_self _ _ _ hfits, ?_⟩
  rw [lookup_graft_diverge _ _ _ _ hdiv]
  exact hsrc

/-- Witness for C3 on a nested two-level dist tree. -/
theorem claim_C3_witness :
    copyDirectory 5
        (FNode.dir [("dist", FNode.dir [("a.txt", FNode.file "A"),
          ("sub", FNode.dir [("b.txt", FNode.file "B")])]),
          ("tizen-build", FNode.dir [])])
        distPath tizenPath =
      Except.ok (graft
        (FNode.dir [("dist", FNode.dir [("a.txt", FNode.file "A"),
          ("sub", FNode.dir [("b.txt", FNode.file "B")])]),
          ("tizen-build", FNode.dir [])])
        tizenPath
        (FNode.dir [("a.txt", FNode.file "A"),
          ("sub", FNode.dir [("b.txt", FNode.file "B")])])) ∧
    lookupNode (graft
        (FNode.dir [("dist", FNode.dir [("a.txt", FNode.file "A"),
          ("sub", FNode.dir [("b.txt", FNode.file "B")])]),
          ("tizen-build", FNode.dir [])])
        tizenPath
        (FNode.dir [("a.txt", FNode.file "A"),
          ("sub", FNode.dir [("b.txt", FNode.file "B")])])) tizenPath =
      some (FNode.dir [("a.txt", FNode.file "A"),
        ("sub", FNode.dir [("b.txt", FNode.file "B")])]) := by
  have h := claim_C3 5
    (FNode.dir [("dist", FNode.dir [("a.txt", FNode.file "A"),
      ("sub", FNode.dir [("b.txt", FNode.file "B")])]),
      ("tizen-build", FNode.dir [])])
    (FNode.dir [("a.txt", FNode.file "A"),
      ("sub", FNode.dir [("b.txt", FNode.file "B")])])
    tizenPath rfl rfl (by decide) (by decide) (by decide) rfl (by decide)
  exact ⟨h.1, h.2.1⟩

/-- C4: after the copy-staging-files step, the staging directory's
contents are a function of the dist tree alone — two runs over
filesystems with the same dist tree but arbitrary (different)
pre-existing staging contents produce the same staging tree, namely the
dist tree, with nothing surviving from before. -/
theorem claim_C4 (fuel : Nat) (rcs1 rcs2 cs : List (String × FNode))
    (hd1 : lookupNode (FNode.dir rcs1) distPath = some (FNode.dir cs))
    (hd2 : lookupNode (FNode.dir rcs2) distPath = some (FNode.dir cs))
    (hwf : wfNode (FNode.dir cs) = true)
    (hfuel : nodeSize (FNode.dir cs) ≤ fuel) :
    ∀ r1 l1 r2 l2 w1 m1,
      Tizen.copyDistFiles fuel (FNode.dir rcs1) = Except.ok (r1, l1) →
      Tizen.copyDistFiles fuel (FNode.dir rcs2) = Except.ok (r2, l2) →
      WebOS.copyDistFiles fuel (FNode.dir rcs1) = Except.ok (w1, m1) →
      lookupNode r1 tizenPath = some (FNode.dir cs) ∧
      lookupNode r2 tizenPath = some (FNode.dir cs) ∧
      lookupNode r1 tizenPath = lookupNode r2 tizenPath ∧
      lookupNode w1 webosPath = some (FNode.dir cs) := by
  intro r1 l1 r2 l2 w1 m1 h1 h2 h3
  have hc1 := tizen_copyDistFiles_ok fuel rcs1 cs hd1 hwf hfuel
  have hc2 := tizen_copyDistFiles_ok fuel rcs2 cs hd2 hwf hfuel
  have hc3 := webos_copyDistFiles_ok fuel rcs1 cs hd1 hwf hfuel
  rw [h1] at hc1
  rw [h2] at hc2
  rw [h3] at hc3
  simp only [Except.ok.injEq, Prod.mk.injEq] at hc1 hc2 hc3
  have fits : ∀ (rcs : List (String × FNode)) (q : List String) (k : String),
      q = [k] →
      pathFits (if existsNode (FNode.dir rcs) q then rmrf (FNode.dir rcs) q
        else FNode.dir rcs) q = true := by
    intro rcs q k hq
    subst hq
    by_cases hx : existsNode (FNode.dir rcs) [k]
    · simp only [hx, if_true, rmrf]
      exact pathFits_dir_single _ _
    · simp only [hx, if_false]
      exact pathFits_dir_single _ _
  have g1 : lookupNode r1 tizenPath = some (FNode.dir cs) := by
    rw [hc1.1]
    exact lookup_graft_self _ _ _ (fits rcs1 tizenPath "tizen-build" rfl)
  have g2 : lookupNode r2 tizenPath = some (FNode.dir cs) := by
    rw [hc2.1]
    exact lookup_graft_self _ _ _ (fits rcs2 tizenPath "tizen-build" rfl)
  have g3 : lookupNode w1 webosPath = some (FNode.dir cs) := by
    rw [hc3.1]
    exact lookup_graft_self _ _ _ (fits rcs1 webosPath "webos-build" rfl)
  exact ⟨g1, g2, by rw [g1, g2], g3⟩

/-- Witness for C4: two filesystems with the same dist tree but
different stale staging contents. -/
theorem claim_C4_witness :
    (Tizen.copyDistFiles 3
      (FNode.dir [("dist", FNode.dir [("a.txt", FNode.file "A")]),
        ("tizen-build", FNode.dir [("stale.txt", FNode.file "old")])])).toOption.map
        (fun r => lookupNode r.1 tizenPath) =
      some (some (FNode.dir [("a.txt", FNode.file "A")])) ∧
    (Tizen.copyDistFiles 3
      (FNode.dir [("extra", FNode.file "x"),
        ("dist", FNode.dir [("a.txt", FNode.file "A")])])).toOption.map
        (fun r => lookupNode r.1 tizenPath) =
      some (some (FNode.dir [("a.txt", FNode.file "A")])) := by
  have h := claim_C4 3
    [("dist", FNode.dir [("a.txt", FNode.file "A")]),
      ("tizen-build", FNode.dir [("stale.txt", FNode.file "old")])]
    [("extra", FNode.file "x"), ("dist", FNode.dir [("a.txt", FNode.file "A")])]
    [("a.txt", FNode.file "A")]
    rfl rfl (by decide) (by decide)
    (FNode.dir [("dist", FNode.dir [("a.txt", FNode.file "A")]),
      ("tizen-build", FNode.dir [("a.txt", FNode.file "A")])]) _
    (FNode.dir [("extra", FNode.file "x"),
      ("dist", FNode.dir [("a.txt", FNode.file "A")]),
      ("tizen-build", FNode.dir [("a.txt", FNode.file "A")])]) _
    (FNode.dir [("dist", FNode.dir [("a.txt", FNode.file "A")]),
      ("tizen-build", FNode.dir [("stale.txt", FNode.file "old")]),
      ("webos-build", FNode.dir [("a.txt", FNode.file "A")])]) _
    rfl rfl rfl
  constructor
  · rw [show Tizen.copyDistFiles 3
      (FNode.dir [("dist", FNode.dir [("a.txt", FNode.file "A")]),
        ("tizen-build", FNode.dir [("stale.txt", FNode.file "old")])]) =
      Except.ok (FNode.dir [("dist", FNode.dir [("a.txt", FNode.file "A")]),
        ("tizen-build", FNode.dir [("a.txt", FNode.file "A")])],
        ["✓ Copied dist files to Tizen build directory"]) from rfl]
    simp [Except.toOption, h.1]
  · rw [show Tizen.copyDistFiles 3
      (FNode.dir [("extra", FNode.file "x"),
        ("dist", FNode.dir [("a.txt", FNode.file "A")])]) =
      Except.ok (FNode.dir [("extra", FNode.file "x"),
        ("dist", FNode.dir [("a.txt", FNode.file "A")]),
        ("tizen-build", FNode.dir [("a.txt", FNode.file "A")])],
        ["✓ Copied dist files to Tizen build directory"]) from rfl]
    simp [Except.toOption, h.2.1]

/-- C8: with the 512×512 icon source absent, the Samsung icon step
returns the filesystem unchanged (it writes nothing into the staging
directory) with exactly the two warning lines naming
`assets/images/icon-512.png`, and the run still completes with exit
code 0, the warning appearing in the printed output. -/
theorem claim_C8 (env : ExportEnv) (pj : PackageJson) (fs0 fs3 : FNode)
    (l3 : List String)
    (hpj : env.packageJson = some pj)
    (hicon : lookupNode fs0 Tizen.iconSrcPath = none)
    (hs3 : Tizen.staged3 env.fuel pj fs0 = Except.ok (fs3, l3)) :
    Tizen.handleIcons pj fs3 = Except.ok (fs3,
      ["⚠ No 512x512 icon found. You need to add:",
       "  - assets/images/icon-512.png (512x512 PNG)"]) ∧
    (Tizen.main env fs0).1 = 0 ∧
    "  - assets/images/icon-512.png (512x512 PNG)" ∈ (Tizen.main env fs0).2.2 := by
  have hdiv : Diverge Tizen.iconSrcPath tizenPath := by decide
  have hicon3 : lookupNode fs3 Tizen.iconSrcPath = none := by
    rw [tizen_staged3_frame env.fuel pj fs0 fs3 l3 hs3 _ hdiv]
    exact hicon
  have hHI : Tizen.handleIcons pj fs3 = Except.ok (fs3,
      ["⚠ No 512x512 icon found. You need to add:",
       "  - assets/images/icon-512.png (512x512 PNG)"]) := by
    simp [Tizen.handleIcons, copyOptionalAsset, existsNode, hicon3]
  refine ⟨hHI, ?_, ?_⟩
  · obtain ⟨opj, cli, pkg, fuel⟩ := env
    cases hpj
    simp only [Tizen.main, Tizen.staged, hs3, stepThen, hHI]
  · obtain ⟨opj, cli, pkg, fuel⟩ := env
    cases hpj
    simp only [Tizen.main, Tizen.staged, hs3, stepThen, hHI]
    simp [Tizen.displayInstructions, List.mem_append]

/-- Witness for C8: a dist with an entry file, no icon asset anywhere. -/
theorem claim_C8_witness :
    Tizen.handleIcons ⟨some "1.0.0"⟩
        (FNode.dir [("dist", FNode.dir []),
          ("tizen-build", FNode.dir [("config.xml",
            FNode.file (configXmlContent (TIZEN_CONFIG ⟨some "1.0.0"⟩)))])]) =
      Except.ok
        (FNode.dir [("dist", FNode.dir []),
          ("tizen-build", FNode.dir [("config.xml",
            FNode.file (configXmlContent (TIZEN_CONFIG ⟨some "1.0.0"⟩)))])],
         ["⚠ No 512x512 icon found. You need to add:",
          "  - assets/images/icon-512.png (512x512 PNG)"]) ∧
    (Tizen.main ⟨some ⟨some "1.0.0"⟩, false, false, 1⟩
      (FNode.dir [("dist", FNode.dir [])])).1 = 0 ∧
    "  - assets/images/icon-512.png (512x512 PNG)" ∈
      (Tizen.main ⟨some ⟨some "1.0.0"⟩, false, false, 1⟩
        (FNode.dir [("dist", FNode.dir [])])).2.2 :=
  claim_C8 ⟨some ⟨some "1.0.0"⟩, false, false, 1⟩ ⟨some "1.0.0"⟩
    (FNode.dir [("dist", FNode.dir [])])
    (FNode.dir [("dist", FNode.dir []),
      ("tizen-build", FNode.dir [("config.xml",
        FNode.file (configXmlContent (TIZEN_CONFIG ⟨some "1.0.0"⟩)))])])
    ["✓ Copied dist files to Tizen build directory",
     "⚠ index.html not found, skipping path fixes", "✓ Created config.xml"]
    rfl rfl rfl

/-- C1 (amended): on every entry file that decomposes into safe literal
chunks and well-formed root-relative references (`segsOk`: chunks free
of `src="`/`href="`, payloads nonempty, quote-free and not ending in an
attribute stem), the path-rewriting step of both exporters strips the
leading slash of every reference: `src="/x"` becomes `src="x"` and
`href="/x"` becomes `href="x"`, bundler-prefixed or not.  The original
every-occurrence reading is refuted by overlapping occurrences
(`claim_C1_counterexample`). -/
theorem claim_C1 (t : List Char) (rs : List (ARef × List Char))
    (h : segsOk t rs = true) :
    fixIndexContent (catWith refTextA t rs) = catWith refTextB t rs := by
  rw [fixIndexContent, stage1 rs t h, stage2 rs t h, stage3 rs t h,
    stage4 rs t h]

/-- Counterexample to C1 as stated: in `src="/src="/x"` the occurrence
`src="/x"` (a `src="/X"` occurrence with `X` nonempty and quote-free)
overlaps the one starting at the front; the rewrite consumes the first
and leaves the second, so `src="/x"` still occurs in the output and
`src="x"` does not. -/
theorem claim_C1_counterexample :
    fixIndexContent ("src=\"/src=\"/x\"".toList) = "src=\"src=\"/x\"".toList ∧
    containsSub ("src=\"/x\"".toList) ("src=\"/src=\"/x\"".toList) = true ∧
    containsSub ("src=\"/x\"".toList)
      (fixIndexContent ("src=\"/src=\"/x\"".toList)) = true ∧
    containsSub ("src=\"x\"".toList)
      (fixIndexContent ("src=\"/src=\"/x\"".toList)) = false := by
  have hfull : fixIndexContent ("src=\"/src=\"/x\"".toList) =
      "src=\"src=\"/x\"".toList := by
    rw [fixIndexContent,
      lit_noSub_walk srcLitPat srcLitRepl ("src=\"/src=\"/x\"".toList) (by decide),
      lit_noSub_walk hrefLitPat hrefLitRepl ("src=\"/src=\"/x\"".toList) (by decide),
      show ("src=\"/src=\"/x\"".toList : List Char) =
        (srcAttr ++ dq :: '/' :: []) ++ ("src=".toList ++ dq :: "/x\"".toList)
        from by decide,
      strip_match srcAttr ("src=".toList) ("/x\"".toList) (by decide) (by decide)
        (by decide),
      strip_noSub_walk srcAttr ("/x\"".toList) (by decide),
      show srcAttr ++ dq :: ("src=".toList ++ dq :: "/x\"".toList) =
        "src=\"src=\"/x\"".toList from by decide,
      strip_noSub_walk hrefAttr ("src=\"src=\"/x\"".toList) (by decide)]
  refine ⟨hfull, by decide, ?_, ?_⟩
  · rw [hfull]
    decide
  · rw [hfull]
    decide

/-- Witness for C1: the spec's example file with a bundler-prefixed
`src`, a bundler-prefixed `href` and a generic `src="/logo.png"`-style
reference, all stripped. -/
theorem claim_C1_witness :
    segsOk "<p ".toList
      [(ARef.src "_expo/foo.js".toList, " x ".toList),
       (ARef.href "_expo/bar.css".toList, " y ".toList),
       (ARef.src "logo.png".toList, " z".toList)] = true ∧
    fixIndexContent
      ("<p src=\"/_expo/foo.js\" x href=\"/_expo/bar.css\" y src=\"/logo.png\" z".toList) =
      "<p src=\"_expo/foo.js\" x href=\"_expo/bar.css\" y src=\"logo.png\" z".toList := by
  constructor
  · decide
  · have h := claim_C1 "<p ".toList
      [(ARef.src "_expo/foo.js".toList, " x ".toList),
       (ARef.href "_expo/bar.css".toList, " y ".toList),
       (ARef.src "logo.png".toList, " z".toList)] (by decide)
    rw [show catWith refTextA "<p ".toList
        [(ARef.src "_expo/foo.js".toList, " x ".toList),
         (ARef.href "_expo/bar.css".toList, " y ".toList),
         (ARef.src "logo.png".toList, " z".toList)] =
        "<p src=\"/_expo/foo.js\" x href=\"/_expo/bar.css\" y src=\"/logo.png\" z".toList
        from by decide,
      show catWith refTextB "<p ".toList
        [(ARef.src "_expo/foo.js".toList, " x ".toList),
         (ARef.href "_expo/bar.css".toList, " y ".toList),
         (ARef.src "logo.png".toList, " z".toList)] =
        "<p src=\"_expo/foo.js\" x href=\"_expo/bar.css\" y src=\"logo.png\" z".toList
        from by decide] at h
    exact h

/-- C5 (amended): on every entry file that decomposes into safe chunks
and well-formed references (`segsOk`), the generic-only pipeline agrees
with the full two-stage pipeline — both strip exactly the leading
slash of every reference.  On arbitrary strings the claim is refuted:
a reference whose closing quote is missing is handled by the literal
pass only (`claim_C5_counterexample`). -/
theorem claim_C5 (t : List Char) (rs : List (ARef × List Char))
    (h : segsOk t rs = true) :
    genericOnlyContent (catWith refTextA t rs) =
      fixIndexContent (catWith refTextA t rs) := by
  rw [genericOnlyContent, fixIndexContent, stage1 rs t h, stage2 rs t h,
    stage3 rs t h, stage4 rs t h, stage3_generic rs t h, stage4_generic rs t h]

/-- Counterexample to C5 as stated: on `src="/_expo/foo` — a
bundler-prefixed reference with no closing quote — the generic rule
never fires (its regex needs the closing quote) while the literal
`src="/_expo/` rule still strips the slash, so the two pipelines
disagree. -/
theorem claim_C5_counterexample :
    genericOnlyContent ("src=\"/_expo/foo".toList) = "src=\"/_expo/foo".toList ∧
    fixIndexContent ("src=\"/_expo/foo".toList) = "src=\"_expo/foo".toList ∧
    genericOnlyContent ("src=\"/_expo/foo".toList) ≠
      fixIndexContent ("src=\"/_expo/foo".toList) := by
  have h3 : stripAttrSlash ('s' :: "rc=".toList)
      ((('s' :: "rc=".toList) ++ dq :: '/' :: []) ++ "_expo/foo".toList) =
      "src=\"/_expo/foo".toList := by
    rw [strip_unterminated 's' ("rc=".toList) ("_expo/foo".toList) (by decide),
      show "rc=".toList ++ dq :: '/' :: "_expo/foo".toList =
        "rc=\"/_expo/foo".toList from by decide,
      strip_noSub_walk ('s' :: "rc=".toList) ("rc=\"/_expo/foo".toList)
        (by decide)]
    decide
  have h3x : stripAttrSlash srcAttr ("src=\"/_expo/foo".toList) =
      "src=\"/_expo/foo".toList := h3
  have hgen : genericOnlyContent ("src=\"/_expo/foo".toList) =
      "src=\"/_expo/foo".toList := by
    rw [genericOnlyContent, h3x,
      strip_noSub_walk hrefAttr ("src=\"/_expo/foo".toList) (by decide)]
  have hfull : fixIndexContent ("src=\"/_expo/foo".toList) =
      "src=\"_expo/foo".toList := by
    rw [fixIndexContent,
      show ("src=\"/_expo/foo".toList : List Char) = srcLitPat ++ "foo".toList
        from by decide,
      replaceLit_match srcLitPat srcLitRepl ("foo".toList) (by decide),
      lit_noSub_walk srcLitPat srcLitRepl ("foo".toList) (by decide),
      show srcLitRepl ++ "foo".toList = "src=\"_expo/foo".toList from by decide,
      lit_noSub_walk hrefLitPat hrefLitRepl ("src=\"_expo/foo".toList) (by decide),
      strip_noSub_walk srcAttr ("src=\"_expo/foo".toList) (by decide),
      strip_noSub_walk hrefAttr ("src=\"_expo/foo".toList) (by decide)]
  refine ⟨hgen, hfull, ?_⟩
  rw [hgen, hfull]
  decide

/-- Witness for C5: on a well-formed entry file with a generic
reference, the generic-only and two-stage pipelines agree. -/
theorem claim_C5_witness :
    segsOk "<q ".toList [(ARef.src "app.js".toList, "</q>".toList)] = true ∧
    genericOnlyContent (catWith refTextA "<q ".toList
        [(ARef.src "app.js".toList, "</q>".toList)]) =
      fixIndexContent (catWith refTextA "<q ".toList
        [(ARef.src "app.js".toList, "</q>".toList)]) :=
  ⟨by decide,
    claim_C5 "<q ".toList [(ARef.src "app.js".toList, "</q>".toList)] (by decide)⟩

end TVExport
